import Mathlib

/-!
# Unix-domain socket client (`exec/src/native/Client.c`)

A shallow embedding of the JNI functions of `Client.c` and the properties of
its chunked, interrupt-safe `read` and `write` and of `connect`.

## Modelling conventions

* A Java `byte[]` is a `List Byte`; `jint` values are integers reduced by
  `toJint`, `size_t` values are naturals reduced by `toSizeT`.
* The operating system is a *script*: the list of results it gives to the
  successive system calls of one native call, in call order.  A run that
  needs a result when the script is exhausted is `blocked` inside that
  system call.  Every system call made is recorded, with the length it was
  given and the result it got.
* Each result of a system call carries the value `errno` has after that call.
* JNI functions (`FindClass`, `ThrowNew`, `GetByteArrayRegion`,
  `SetByteArrayRegion`) and libc `strerror`, `strdup`, `strcpy` are outside
  `Client.c`; they are modelled by their documented behaviour, the outcome of
  `FindClass`, `strerror` and `strdup` being fields of the `Runtime` a call
  runs in.
-/

namespace Client

/-! ## Machine integers -/

/-- One `jbyte` / `unsigned char`. -/
abbrev Byte := UInt8

/-- Conversion of an integer to `jint` / `int` (32 bits, two's complement);
`jint` arithmetic that overflows is taken to wrap around. -/
def toJint (x : Int) : Int := (x + 2147483648) % 4294967296 - 2147483648

/-- Conversion of an integer to `size_t` (64 bits, unsigned). -/
def toSizeT (x : Int) : Nat := (x % 18446744073709551616).toNat

/-- Value of `EINTR` in `<errno.h>` (Linux). -/
def EINTR : Nat := 4

/-- Value of `ENOENT` in `<errno.h>` (Linux). -/
def ENOENT : Nat := 2

/-- Size of the staging array, `unsigned char buf[128]`. -/
def chunkSize : Nat := 128

/-! ## Exceptions -/

/-- A pending Java exception: class name and detail message (`none` for `NULL`). -/
structure Throwable where
  cls : String
  msg : Option String
  deriving DecidableEq, Repr

/-- What `Client.c` needs from the JVM and libc. -/
structure Runtime where
  /-- Whether `FindClass` resolves the class of that name. -/
  FindClass : String → Bool
  /-- The libc `strerror`. -/
  strerror : Nat → String
  /-- Whether `strdup` of that string finds memory for the copy. -/
  strdupOk : String → Bool

/-- `GetLastErrorString(buf, len)` at the given `errno`: the text left in `buf`
and the returned length; `buf` is not written when `errno == 0`. -/
def GetLastErrorString (rt : Runtime) (errno : Nat) (len : Nat) : String × Nat :=
  if errno = 0 then ("", 0)
  else
    let s := rt.strerror errno
    let n := if s.length ≥ len then len - 1 else s.length
    (String.mk (s.data.take n), n)

/-- `JNU_ThrowByName(env, name, msg)`: the exception pending afterwards.  When
`FindClass` fails no `ThrowNew` is made and the `NoClassDefFoundError` of
`FindClass` is the one pending. -/
def JNU_ThrowByName (rt : Runtime) (name : String) (msg : Option String) : Throwable :=
  if rt.FindClass name then ⟨name, msg⟩
  else ⟨"java/lang/NoClassDefFoundError", some name⟩

/-- `JNU_ThrowByNameWithLastError(env, name, defaultDetail)` at the given `errno`. -/
def JNU_ThrowByNameWithLastError (rt : Runtime) (name : String) (errno : Nat)
    (defaultDetail : String) : Throwable :=
  let r := GetLastErrorString rt errno 256
  if r.2 > 0 then JNU_ThrowByName rt name (some r.1)
  else JNU_ThrowByName rt name (some defaultDetail)

/-! ## System calls -/

/-- Result of one `write(2)` or `connect(2)`: the returned value and `errno`
after the call. -/
structure SysRet where
  ret : Int
  errno : Nat
  deriving DecidableEq, Repr

/-- The result of a system call interrupted by a signal. -/
def SysRet.interrupted (r : SysRet) : Prop := r.ret = -1 ∧ r.errno = EINTR

instance (r : SysRet) : Decidable r.interrupted := by
  unfold SysRet.interrupted; infer_instance

/-- How a native call ends: it returned without throwing through
`JNU_ThrowByName`, it threw that exception and returned, or it is blocked in
a system call. -/
inductive Status where
  | returned
  | raised (e : Throwable)
  | blocked
  deriving DecidableEq, Repr

/-! ## `write` -/

/-- JNI `GetByteArrayRegion(env, ba, start, len, buf)`: the `len` bytes copied
into `buf`, or `none` when the region is not inside the array (an
`ArrayIndexOutOfBoundsException` becomes pending and `buf` is not written). -/
def GetByteArrayRegion (ba : List Byte) (start : Int) (len : Nat) : Option (List Byte) :=
  if 0 ≤ start ∧ start + len ≤ ba.length then some ((ba.drop start.toNat).take len)
  else none

/-- One `write(fd, buf, len)` made by `write`: the length offered, the staged
bytes (`none`: the staging array was left indeterminate by a failed
`GetByteArrayRegion`), and the result. -/
structure WriteCall where
  len : Nat
  buf : Option (List Byte)
  ret : Int
  errno : Nat
  deriving DecidableEq, Repr

/-- The bytes the OS took in that call (none are recorded for an indeterminate
staging array). -/
def WriteCall.accepted (c : WriteCall) : List Byte :=
  (c.buf.getD []).take c.ret.toNat

/-- Whether that call was interrupted by a signal. -/
def WriteCall.interrupted (c : WriteCall) : Prop := c.ret = -1 ∧ c.errno = EINTR

instance (c : WriteCall) : Decidable c.interrupted := by
  unfold WriteCall.interrupted; infer_instance

/-- The call neither took a byte nor was interrupted: it returned zero, or a
negative value that is not an `EINTR` interruption. -/
def WriteCall.failed (c : WriteCall) : Prop := c.ret ≤ 0 ∧ ¬ c.interrupted

instance (c : WriteCall) : Decidable c.failed := by
  unfold WriteCall.failed; infer_instance

/-- The `IOException` that `write` throws for the failed call `c`. -/
def WriteCall.thrown (rt : Runtime) (c : WriteCall) : Throwable :=
  JNU_ThrowByNameWithLastError rt "java/io/IOException" c.errno "write"

/-- A run of `write`: the OS calls made, in order, and how it ended. -/
structure WriteRun where
  calls : List WriteCall
  status : Status
  deriving DecidableEq, Repr

/-- The run that makes call `c` and goes on as `run`. -/
def WriteRun.after (c : WriteCall) (run : WriteRun) : WriteRun :=
  ⟨c :: run.calls, run.status⟩

/-- All bytes the OS took during the run, in call order. -/
def WriteRun.delivered (run : WriteRun) : List Byte :=
  (run.calls.map WriteCall.accepted).flatten

/-- Whether a `GetByteArrayRegion` of the run raised `ArrayIndexOutOfBoundsException`. -/
def WriteRun.outOfBounds (run : WriteRun) : Bool :=
  run.calls.any fun c => c.buf.isNone

/-- The `do … while (remaining > 0)` loop of `write`, entered at the
`RESTARTABLE(write(fd, buf, len), n)` of an iteration whose `len` and staged
`buf` are given; each OS call takes the next result of the script.  The first
branch is the loop of the `RESTARTABLE` macro, `while((_result == -1) &&
(errno == EINTR))` with `_result` the `int n`: the same call is made again. -/
def writeLoop (rt : Runtime) (ba : List Byte) (off : Int) (remaining : Nat)
    (len : Nat) (buf : Option (List Byte)) : List SysRet → WriteRun
  | [] => ⟨[], .blocked⟩
  | r :: rest =>
    let n := toJint r.ret
    let call : WriteCall := ⟨len, buf, r.ret, r.errno⟩
    if n = -1 ∧ r.errno = EINTR then
      (writeLoop rt ba off remaining len buf rest).after call
    else if n > 0 then
      let off1 := toJint (off + n)
      let remaining1 := toSizeT ((remaining : Int) - n)
      if remaining1 > 0 then
        let len1 := min chunkSize remaining1
        (writeLoop rt ba off1 remaining1 len1 (GetByteArrayRegion ba off1 len1) rest).after call
      else ⟨[call], .returned⟩
    else
      ⟨[call], .raised (JNU_ThrowByNameWithLastError rt "java/io/IOException" r.errno "write")⟩

/-- `Java_foundation_icon_ee_ipc_Client_write(env, cls, fd, ba, off, bufLen)`. -/
def Java_foundation_icon_ee_ipc_Client_write (rt : Runtime) (ba : List Byte)
    (off bufLen : Int) (script : List SysRet) : WriteRun :=
  let remaining := toSizeT bufLen
  let len := min chunkSize remaining
  writeLoop rt ba off remaining len (GetByteArrayRegion ba off len) script

/-! ## `read` -/

/-- Result of one `read(2)`: the returned value, `errno` after the call, and
the bytes the call left at the start of the staging array. -/
structure ReadRet where
  ret : Int
  errno : Nat
  buf : List Byte
  deriving DecidableEq, Repr

/-- One `read(fd, buf, len)` made by `read`: the length asked for and the result. -/
structure ReadCall where
  len : Nat
  ret : Int
  errno : Nat
  deriving DecidableEq, Repr

/-- Whether that call was interrupted by a signal. -/
def ReadCall.interrupted (c : ReadCall) : Prop := c.ret = -1 ∧ c.errno = EINTR

instance (c : ReadCall) : Decidable c.interrupted := by
  unfold ReadCall.interrupted; infer_instance

/-- A run of `read`: the OS calls made, the returned `jint` (`none`: blocked in
the OS call), the exception pending at return, and the destination array
afterwards. -/
structure ReadRun where
  calls : List ReadCall
  ret : Option Int
  exn : Option Throwable
  ba : List Byte
  deriving DecidableEq, Repr

/-- The run that makes call `c` and goes on as `run`. -/
def ReadRun.after (c : ReadCall) (run : ReadRun) : ReadRun :=
  ⟨c :: run.calls, run.ret, run.exn, run.ba⟩

/-- JNI `SetByteArrayRegion(env, ba, start, len, buf)`: the array afterwards, or
`none` when the region is not inside the array (an
`ArrayIndexOutOfBoundsException` becomes pending and the array is unchanged). -/
def SetByteArrayRegion (ba : List Byte) (start len : Int) (buf : List Byte) :
    Option (List Byte) :=
  if 0 ≤ start ∧ 0 ≤ len ∧ start + len ≤ ba.length then
    some (ba.take start.toNat ++ buf.take len.toNat ++ ba.drop (start.toNat + len.toNat))
  else none

/-- The `len` that `read` passes to `read(2)`: `sizeof(buf)`, cut down to
`remaining = (size_t)(baLen - off)`. -/
def readLen (off baLen : Int) : Nat :=
  let len := chunkSize
  let remaining := toSizeT (toJint (baLen - off))
  if len > remaining then remaining else len

/-- The body of `read` from `RESTARTABLE(read(fd, buf, len), n)` on; each OS call
takes the next result of the script.  The first branch is the loop of the
`RESTARTABLE` macro, with `_result` the `ssize_t n`. -/
def readLoop (rt : Runtime) (ba : List Byte) (off : Int) (len : Nat) :
    List ReadRet → ReadRun
  | [] => ⟨[], none, none, ba⟩
  | r :: rest =>
    let call : ReadCall := ⟨len, r.ret, r.errno⟩
    if r.ret = -1 ∧ r.errno = EINTR then
      (readLoop rt ba off len rest).after call
    else if r.ret = -1 then
      ⟨[call], some (toJint r.ret),
        some (JNU_ThrowByNameWithLastError rt "java/io/IOException" r.errno "read"), ba⟩
    else if r.ret = 0 then
      ⟨[call], some (toJint (-1)), none, ba⟩
    else
      match SetByteArrayRegion ba off (toJint r.ret) r.buf with
      | some ba1 => ⟨[call], some (toJint r.ret), none, ba1⟩
      | none =>
        ⟨[call], some (toJint r.ret),
          some ⟨"java/lang/ArrayIndexOutOfBoundsException", none⟩, ba⟩

/-- `Java_foundation_icon_ee_ipc_Client_read(env, cls, fd, ba, off, baLen)`. -/
def Java_foundation_icon_ee_ipc_Client_read (rt : Runtime) (ba : List Byte)
    (off baLen : Int) (script : List ReadRet) : ReadRun :=
  readLoop rt ba off (readLen off baLen) script

/-- The value `read` returns for end of stream (`n = -1;  // EOF`). -/
def endOfStream : Int := -1

/-! ## `connect` -/

/-- Size of `sun_path` in `struct sockaddr_un`, from `<sys/un.h>` (Linux). -/
def sunPathSize : Nat := 108

/-- The C string at a `char *`: the bytes before the first NUL. -/
def cstr (p : List Byte) : List Byte := p.takeWhile (· ≠ 0)

/-- The libc `strdup`: a copy of the string, or `none` for `NULL`. -/
def strdup (rt : Runtime) (s : String) : Option String :=
  if rt.strdupOk s then some s else none

/-- A run of `connect`: the `connect(2)` calls made, each recorded by the C
string that `addr.sun_path` holds, and the exception pending at return. -/
structure ConnectRun where
  calls : List (List Byte)
  exn : Option Throwable
  deriving DecidableEq, Repr

/-- `Java_foundation_icon_ee_ipc_Client_connect(env, cls, fd, path)`, where `p`
is what `GetStringUTFChars` gives (`none` for `NULL`, its `OutOfMemoryError`
pending) and `os` is the result of `connect(2)`.  `strcpy(addr.sun_path, p)`
copies the string and its terminating NUL into the `sunPathSize` bytes of
`sun_path` with no check: when they do not fit it writes past `addr`, the
behaviour of the C code is undefined, and the result is `none`. -/
def Java_foundation_icon_ee_ipc_Client_connect (rt : Runtime) (p : Option (List Byte))
    (os : SysRet) : Option ConnectRun :=
  match p with
  | none => some ⟨[], some ⟨"java/lang/OutOfMemoryError", none⟩⟩
  | some bytes =>
    if (cstr bytes).length + 1 > sunPathSize then none
    else
      let err := if os.ret = -1 then os.errno else 0
      if err ≠ 0 then
        if err = ENOENT then
          some ⟨[cstr bytes], some (JNU_ThrowByName rt "java/io/FileNotFoundException" none)⟩
        else
          some ⟨[cstr bytes],
            some (JNU_ThrowByName rt "java/io/IOException" (strdup rt (rt.strerror err)))⟩
      else some ⟨[cstr bytes], none⟩

/-! ## A stream socket as the peer of `read` -/

/-- Receive side of a connected stream socket: the bytes that arrived and are
not read yet, and whether the peer has closed its write side. -/
structure Sock where
  unread : List Byte
  peerClosed : Bool
  deriving DecidableEq, Repr

/-- What `read(2)` with length `len` gives on that socket, `none` when it
blocks: 0 for `len = 0`; with bytes unread, between 1 and `min len unread`
of them (`want`, forced into that range, is the number the OS chooses); with
none unread, 0 once the peer has closed. -/
def Sock.read (s : Sock) (want len : Nat) : Option ReadRet :=
  if len = 0 then some ⟨0, 0, []⟩
  else if s.unread = [] then (if s.peerClosed then some ⟨0, 0, []⟩ else none)
  else
    let k := min (min len s.unread.length) (max want 1)
    some ⟨k, 0, s.unread.take k⟩

/-- The socket once the given calls have consumed what they returned. -/
def Sock.after (s : Sock) (calls : List ReadCall) : Sock :=
  ⟨s.unread.drop (calls.map fun c => c.ret.toNat).sum, s.peerClosed⟩

/-- One `read` of a session: destination array, `off`, `baLen`, and the number
of bytes the OS chooses to deliver to it. -/
structure ReadReq where
  ba : List Byte
  off : Int
  baLen : Int
  want : Nat
  deriving DecidableEq, Repr

/-- The `read` call `q` made on socket `s`. -/
def readOn (rt : Runtime) (s : Sock) (q : ReadReq) : ReadRun :=
  Java_foundation_icon_ee_ipc_Client_read rt q.ba q.off q.baLen
    (s.read q.want (readLen q.off q.baLen)).toList

/-- Successive `read` calls on one socket; a call that blocks ends the session. -/
def readSession (rt : Runtime) : Sock → List ReadReq → List ReadRun
  | _, [] => []
  | s, q :: qs =>
    let run := readOn rt s q
    match run.ret with
    | none => [run]
    | some _ => run :: readSession rt (s.after run.calls) qs

/-- The bytes a finished `read` stored in its destination: `ba[off .. off+ret)`. -/
def ReadRun.stored (run : ReadRun) (off : Int) : List Byte :=
  (run.ba.drop off.toNat).take ((run.ret.getD 0).toNat)

/-- A runtime in which every class resolves, `strerror` gives fixed texts and
`strdup` finds memory. -/
def linux : Runtime :=
  ⟨fun _ => true, fun e => if e = 2 then "No such file or directory"
    else if e = 4 then "Interrupted system call"
    else if e = 32 then "Broken pipe"
    else if e = 111 then "Connection refused"
    else "Unknown error", fun _ => true⟩

/-- The number of bytes a finished `read` reports: its returned value when
positive, else 0. -/
def ReadRun.count (run : ReadRun) : Nat := (run.ret.getD 0).toNat

/-- A `read` whose destination region `[off, baLen)` is inside the array and
has room for at least one byte. -/
def ReadReq.valid (q : ReadReq) : Prop :=
  0 ≤ q.off ∧ q.off < q.baLen ∧ q.baLen ≤ q.ba.length ∧ (q.ba.length : Int) < 2147483648

instance (q : ReadReq) : Decidable q.valid := by
  unfold ReadReq.valid; infer_instance

/-- Sum of the byte counts reported by the runs. -/
def sessionCount (runs : List ReadRun) : Nat := (runs.map ReadRun.count).sum

/-- The bytes the runs stored in their destinations, in call order. -/
def sessionStored (reqs : List ReadReq) (runs : List ReadRun) : List Byte :=
  ((reqs.zip runs).map fun p => p.2.stored p.1.off).flatten

/-! ## Sample inputs -/

/-- A 131-byte array holding 0, 1, …, 130. -/
def sampleArray : List Byte := (List.range 131).map UInt8.ofNat

/-- An OS that takes 100 bytes, then 28, then one byte per call. -/
def sampleWriteScript : List SysRet :=
  ⟨100, 0⟩ :: ⟨28, 0⟩ :: List.replicate 127 ⟨1, 0⟩

/-- An OS that takes 100 bytes, is interrupted once, and then fails with `EPIPE`. -/
def brokenPipeScript : List SysRet := [⟨100, 0⟩, ⟨-1, 4⟩, ⟨-1, 32⟩]

/-- A five-byte destination array of zeros. -/
def sampleDest : List Byte := [0, 0, 0, 0, 0]

/-- An OS whose `read(2)` is interrupted once and then delivers the bytes 8, 9. -/
def sampleReadScript : List ReadRet := [⟨-1, 4, []⟩, ⟨2, 0, [8, 9]⟩]

/-- A 200-byte destination array of zeros. -/
def wideDest : List Byte := List.replicate 200 0

/-- An OS whose `read(2)` delivers 128 bytes of value 1. -/
def fullChunkScript : List ReadRet := [⟨128, 0, List.replicate 128 1⟩]

/-- A 300-byte array of zeros. -/
def array300 : List Byte := List.replicate 300 0

/-- Four reads into three-byte arrays, at offsets 0, 1, 2 and 0. -/
def sampleReqs : List ReadReq :=
  [⟨[0, 0, 0], 0, 3, 2⟩, ⟨[0, 0, 0], 1, 3, 9⟩, ⟨[0, 0, 0], 2, 3, 0⟩, ⟨[0, 0, 0], 0, 3, 0⟩]

/-- The bytes of the path `/nonexistent.sock`. -/
def nonexistentPath : List Byte := "/nonexistent.sock".data.map fun c => c.toNat.toUInt8

/-- A path of 108 bytes `a`, one more than fits `sun_path` with its NUL. -/
def longPath : List Byte := List.replicate 108 97


/-! ## Arithmetic of the conversions -/

theorem toJint_of_range {x : Int} (h1 : -2147483648 ≤ x) (h2 : x < 2147483648) :
    toJint x = x := by
  unfold toJint; omega

theorem toSizeT_of_range {x : Int} (h1 : 0 ≤ x) (h2 : x < 18446744073709551616) :
    toSizeT x = x.toNat := by
  unfold toSizeT; rw [Int.emod_eq_of_lt h1 h2]

theorem toSizeT_natCast_sub {m : Nat} {n : Int} (h1 : 0 ≤ n) (h2 : n ≤ m)
    (h3 : m < 18446744073709551616) : toSizeT ((m : Int) - n) = m - n.toNat := by
  rw [toSizeT_of_range (by omega) (by omega)]; omega

/-! ## Lists -/

theorem take_take_append_drop {α : Type} (xs : List α) (a l m : Nat) (h1 : a ≤ l) (h2 : a ≤ m) :
    (xs.take l).take a ++ (xs.drop a).take (m - a) = xs.take m := by
  rw [List.take_take, Nat.min_eq_left h1]
  have : m = a + (m - a) := by omega
  conv_rhs => rw [this, List.take_add]

/-! ## Unfolding `writeLoop` -/

theorem writeLoop_nil (rt : Runtime) (ba : List Byte) (off : Int) (remaining len : Nat)
    (buf : Option (List Byte)) :
    writeLoop rt ba off remaining len buf [] = ⟨[], .blocked⟩ := rfl

theorem writeLoop_cons (rt : Runtime) (ba : List Byte) (off : Int) (remaining len : Nat)
    (buf : Option (List Byte)) (r : SysRet) (rest : List SysRet) :
    writeLoop rt ba off remaining len buf (r :: rest) =
      if toJint r.ret = -1 ∧ r.errno = EINTR then
        (writeLoop rt ba off remaining len buf rest).after ⟨len, buf, r.ret, r.errno⟩
      else if toJint r.ret > 0 then
        if toSizeT ((remaining : Int) - toJint r.ret) > 0 then
          (writeLoop rt ba (toJint (off + toJint r.ret)) (toSizeT ((remaining : Int) - toJint r.ret))
            (min chunkSize (toSizeT ((remaining : Int) - toJint r.ret)))
            (GetByteArrayRegion ba (toJint (off + toJint r.ret))
              (min chunkSize (toSizeT ((remaining : Int) - toJint r.ret)))) rest).after
            ⟨len, buf, r.ret, r.errno⟩
        else ⟨[⟨len, buf, r.ret, r.errno⟩], .returned⟩
      else
        ⟨[⟨len, buf, r.ret, r.errno⟩],
          .raised (JNU_ThrowByNameWithLastError rt "java/io/IOException" r.errno "write")⟩ := rfl

theorem writeLoop_head_mem (rt : Runtime) (ba : List Byte) (off : Int) (remaining len : Nat)
    (buf : Option (List Byte)) (r : SysRet) (rest : List SysRet) :
    (⟨len, buf, r.ret, r.errno⟩ : WriteCall) ∈
      (writeLoop rt ba off remaining len buf (r :: rest)).calls := by
  rw [writeLoop_cons]
  split_ifs <;> simp [WriteRun.after]



/-! ## `write` on a well-formed region with an OS that takes bytes -/

theorem GetByteArrayRegion_inside (ba : List Byte) (start : Int) (len : Nat)
    (h0 : 0 ≤ start) (h1 : start + len ≤ ba.length) :
    GetByteArrayRegion ba start len = some ((ba.drop start.toNat).take len) := by
  unfold GetByteArrayRegion; rw [if_pos ⟨h0, h1⟩]

theorem delivered_after (c : WriteCall) (run : WriteRun) :
    (run.after c).delivered = c.accepted ++ run.delivered := by
  simp [WriteRun.after, WriteRun.delivered]

theorem outOfBounds_after (c : WriteCall) (run : WriteRun) :
    (run.after c).outOfBounds = (c.buf.isNone || run.outOfBounds) := by
  simp [WriteRun.after, WriteRun.outOfBounds]

theorem writeLoop_delivers (rt : Runtime) (ba : List Byte) (hba : (ba.length : Int) < 2147483648) :
    ∀ (script : List SysRet) (off : Int) (remaining : Nat),
      0 ≤ off → 1 ≤ remaining → off + remaining ≤ ba.length → remaining ≤ script.length →
      (∀ c ∈ (writeLoop rt ba off remaining (min chunkSize remaining)
          (GetByteArrayRegion ba off (min chunkSize remaining)) script).calls,
          1 ≤ c.ret ∧ c.ret ≤ c.len) →
      (writeLoop rt ba off remaining (min chunkSize remaining)
          (GetByteArrayRegion ba off (min chunkSize remaining)) script).status = .returned ∧
      (writeLoop rt ba off remaining (min chunkSize remaining)
          (GetByteArrayRegion ba off (min chunkSize remaining)) script).delivered
        = (ba.drop off.toNat).take remaining ∧
      (writeLoop rt ba off remaining (min chunkSize remaining)
          (GetByteArrayRegion ba off (min chunkSize remaining)) script).outOfBounds = false := by
  intro script
  induction script with
  | nil => intro off remaining _ h1 _ h3; simp at h3; omega
  | cons r rest ih =>
    intro off remaining h0 h1 h2 h3 hos
    have hhead := hos _ (writeLoop_head_mem ..)
    simp only at hhead
    obtain ⟨hr1, hr2⟩ := hhead
    have hlen : min chunkSize remaining ≤ 128 := by unfold chunkSize; omega
    have hlen2 : min chunkSize remaining ≤ remaining := by omega
    have hj : toJint r.ret = r.ret := toJint_of_range (by omega) (by omega)
    have hrm : r.ret ≤ (remaining : Int) := by omega
    have hoff1 : toJint (off + r.ret) = off + r.ret := toJint_of_range (by omega) (by omega)
    have hrem1 : toSizeT ((remaining : Int) - r.ret) = remaining - r.ret.toNat :=
      toSizeT_natCast_sub (by omega) hrm (by omega)
    have hbuf := GetByteArrayRegion_inside ba off (min chunkSize remaining) h0 (by omega)
    rw [writeLoop_cons] at hos ⊢
    rw [hj, hoff1, hrem1] at hos ⊢
    rw [if_neg (by omega), if_pos (by omega)] at hos ⊢
    have hacc : (⟨min chunkSize remaining, GetByteArrayRegion ba off (min chunkSize remaining),
        r.ret, r.errno⟩ : WriteCall).accepted
        = ((ba.drop off.toNat).take (min chunkSize remaining)).take r.ret.toNat := by
      simp [WriteCall.accepted, hbuf]
    by_cases hgo : remaining - r.ret.toNat > 0
    · rw [if_pos hgo] at hos ⊢
      have hsub := ih (off + r.ret) (remaining - r.ret.toNat) (by omega) (by omega) (by omega)
        (by simp at h3; omega)
        (fun c hc => hos c (by simp [WriteRun.after]; exact Or.inr hc))
      obtain ⟨s1, s2, s3⟩ := hsub
      refine ⟨by simpa [WriteRun.after] using s1, ?_, ?_⟩
      · rw [delivered_after, s2, hacc]
        have e : (off + r.ret).toNat = off.toNat + r.ret.toNat := by omega
        rw [e, ← List.drop_drop]
        exact take_take_append_drop _ _ _ _ (by omega) (by omega)
      · rw [outOfBounds_after, s3, hbuf]; rfl
    · rw [if_neg hgo]
      refine ⟨rfl, ?_, ?_⟩
      · show (WriteCall.accepted _ :: []).flatten = _
        have hrr : r.ret.toNat = remaining := by omega
        simp only [List.flatten, List.append_nil]
        rw [hacc, List.take_take, hrr]
        congr 1; omega
      · simp [WriteRun.outOfBounds, hbuf]



/-- C1: on a region `[off, off+L)` inside the array with `L ≥ 1`, and an OS that
takes between 1 and the offered number of bytes in every `write(2)` it is
given (the script holding enough results), `write` returns without an
exception and the bytes taken by the OS, in call order, are `ba[off .. off+L)`. -/
theorem write_delivers_region (rt : Runtime) (ba : List Byte) (off L : Int)
    (script : List SysRet)
    (hba : (ba.length : Int) < 2147483648)
    (hL : 1 ≤ L) (hoff : 0 ≤ off) (hin : off + L ≤ ba.length)
    (hos : ∀ c ∈ (Java_foundation_icon_ee_ipc_Client_write rt ba off L script).calls,
      1 ≤ c.ret ∧ c.ret ≤ c.len)
    (hfuel : L ≤ script.length) :
    (Java_foundation_icon_ee_ipc_Client_write rt ba off L script).status = .returned ∧
    (Java_foundation_icon_ee_ipc_Client_write rt ba off L script).outOfBounds = false ∧
    (Java_foundation_icon_ee_ipc_Client_write rt ba off L script).delivered
      = (ba.drop off.toNat).take L.toNat := by
  have hsz : toSizeT L = L.toNat := toSizeT_of_range (by omega) (by omega)
  unfold Java_foundation_icon_ee_ipc_Client_write at hos ⊢
  simp only [hsz] at hos ⊢
  obtain ⟨h1, h2, h3⟩ := writeLoop_delivers rt ba hba script off L.toNat hoff (by omega)
    (by omega) (by omega) hos
  exact ⟨h1, h3, h2⟩

set_option maxRecDepth 100000 in
/-- Witness of C1 with `L = 129`, one byte more than a chunk, and partial writes. -/
theorem write_delivers_region_witness :
    (Java_foundation_icon_ee_ipc_Client_write linux sampleArray 1 129 sampleWriteScript).status
      = .returned ∧
    (Java_foundation_icon_ee_ipc_Client_write linux sampleArray 1 129
      sampleWriteScript).outOfBounds = false ∧
    (Java_foundation_icon_ee_ipc_Client_write linux sampleArray 1 129
      sampleWriteScript).delivered = (sampleArray.drop (1 : Int).toNat).take (129 : Int).toNat :=
  write_delivers_region linux sampleArray 1 129 sampleWriteScript (by decide) (by decide)
    (by decide) (by decide) (by decide) (by decide)



/-! ## `write` fails at the first call that takes nothing -/

theorem thrown_cls (rt : Runtime) (name : String) (errno : Nat) (d : String)
    (hcls : rt.FindClass name = true) :
    (JNU_ThrowByNameWithLastError rt name errno d).cls = name := by
  unfold JNU_ThrowByNameWithLastError JNU_ThrowByName
  simp only [hcls, if_true]
  split_ifs <;> rfl

theorem writeLoop_fails_fast (rt : Runtime) (ba : List Byte)
    (hba : (ba.length : Int) < 2147483648) :
    ∀ (script : List SysRet) (off : Int) (remaining : Nat),
      0 ≤ off → off + remaining ≤ ba.length →
      (∀ c ∈ (writeLoop rt ba off remaining (min chunkSize remaining)
          (GetByteArrayRegion ba off (min chunkSize remaining)) script).calls,
          -2147483648 ≤ c.ret ∧ c.ret ≤ c.len) →
      (∀ e, (writeLoop rt ba off remaining (min chunkSize remaining)
          (GetByteArrayRegion ba off (min chunkSize remaining)) script).status = .raised e →
        ∃ c ∈ (writeLoop rt ba off remaining (min chunkSize remaining)
          (GetByteArrayRegion ba off (min chunkSize remaining)) script).calls,
          c.failed ∧ e = c.thrown rt) ∧
      (∀ pre c post, (writeLoop rt ba off remaining (min chunkSize remaining)
          (GetByteArrayRegion ba off (min chunkSize remaining)) script).calls = pre ++ c :: post →
        c.failed → post = [] ∧
          (writeLoop rt ba off remaining (min chunkSize remaining)
            (GetByteArrayRegion ba off (min chunkSize remaining)) script).status
            = .raised (c.thrown rt)) ∧
      (writeLoop rt ba off remaining (min chunkSize remaining)
          (GetByteArrayRegion ba off (min chunkSize remaining)) script).delivered
        <+: (ba.drop off.toNat).take remaining := by
  intro script
  induction script with
  | nil =>
    intro off remaining _ _ _
    refine ⟨?_, ?_, ?_⟩
    · intro e h; simp [writeLoop_nil] at h
    · intro pre c post h; simp [writeLoop_nil] at h
    · simp [writeLoop_nil, WriteRun.delivered]
  | cons r rest ih =>
    intro off remaining h0 h2 hos
    have hhead := hos _ (writeLoop_head_mem ..)
    simp only at hhead
    have hlen : min chunkSize remaining ≤ 128 := by unfold chunkSize; omega
    have hlen2 : min chunkSize remaining ≤ remaining := by omega
    have hj : toJint r.ret = r.ret := toJint_of_range (by omega) (by omega)
    have hbuf := GetByteArrayRegion_inside ba off (min chunkSize remaining) h0 (by omega)
    rw [writeLoop_cons] at hos ⊢
    rw [hj] at hos ⊢
    have hacc : (⟨min chunkSize remaining, GetByteArrayRegion ba off (min chunkSize remaining),
        r.ret, r.errno⟩ : WriteCall).accepted
        = ((ba.drop off.toNat).take (min chunkSize remaining)).take r.ret.toNat := by
      simp [WriteCall.accepted, hbuf]
    by_cases hint : r.ret = -1 ∧ r.errno = EINTR
    · -- interrupted: the same call is made again
      rw [if_pos hint] at hos ⊢
      obtain ⟨i1, i2, i3⟩ := ih off remaining h0 h2
        (fun c hc => hos c (by simp [WriteRun.after]; exact Or.inr hc))
      refine ⟨?_, ?_, ?_⟩
      · intro e he
        obtain ⟨c, hc, hf, hth⟩ := i1 e (by simpa [WriteRun.after] using he)
        exact ⟨c, by simp [WriteRun.after]; exact Or.inr hc, hf, hth⟩
      · intro pre c post hcalls hf
        cases pre with
        | nil =>
          simp [WriteRun.after] at hcalls
          exfalso; apply hf.2
          rw [← hcalls.1]; exact hint
        | cons p pre1 =>
          simp [WriteRun.after] at hcalls
          simpa [WriteRun.after] using i2 pre1 c post hcalls.2 hf
      · rw [delivered_after, hacc, hint.1]
        simpa using i3
    · rw [if_neg hint] at hos ⊢
      by_cases hpos : r.ret > 0
      · have hrm : r.ret ≤ (remaining : Int) := by omega
        have hoff1 : toJint (off + r.ret) = off + r.ret := toJint_of_range (by omega) (by omega)
        have hrem1 : toSizeT ((remaining : Int) - r.ret) = remaining - r.ret.toNat :=
          toSizeT_natCast_sub (by omega) hrm (by omega)
        rw [if_pos hpos, hoff1, hrem1] at hos ⊢
        by_cases hgo : remaining - r.ret.toNat > 0
        · rw [if_pos hgo] at hos ⊢
          obtain ⟨i1, i2, i3⟩ := ih (off + r.ret) (remaining - r.ret.toNat) (by omega) (by omega)
            (fun c hc => hos c (by simp [WriteRun.after]; exact Or.inr hc))
          refine ⟨?_, ?_, ?_⟩
          · intro e he
            obtain ⟨c, hc, hf, hth⟩ := i1 e (by simpa [WriteRun.after] using he)
            exact ⟨c, by simp [WriteRun.after]; exact Or.inr hc, hf, hth⟩
          · intro pre c post hcalls hf
            cases pre with
            | nil =>
              simp [WriteRun.after] at hcalls
              exfalso
              have := hf.1
              rw [← hcalls.1] at this
              simp only at this
              omega
            | cons p pre1 =>
              simp [WriteRun.after] at hcalls
              simpa [WriteRun.after] using i2 pre1 c post hcalls.2 hf
          · rw [delivered_after, hacc]
            obtain ⟨t, ht⟩ := i3
            refine ⟨t, ?_⟩
            rw [List.append_assoc, ht]
            have e : (off + r.ret).toNat = off.toNat + r.ret.toNat := by omega
            rw [e, ← List.drop_drop]
            exact take_take_append_drop _ _ _ _ (by omega) (by omega)
        · rw [if_neg hgo]
          refine ⟨?_, ?_, ?_⟩
          · intro e he; simp at he
          · intro pre c post hcalls hf
            cases pre with
            | nil =>
              simp at hcalls
              exfalso
              have := hf.1
              rw [← hcalls.1] at this
              simp only at this
              omega
            | cons p pre1 => simp at hcalls
          · show (WriteCall.accepted _ :: []).flatten <+: _
            have hrr : r.ret.toNat = remaining := by omega
            simp only [List.flatten, List.append_nil]
            rw [hacc, List.take_take, hrr]
            have : min remaining (min chunkSize remaining) = remaining := by omega
            rw [this]
      · rw [if_neg hpos]
        have hfail : (⟨min chunkSize remaining,
            GetByteArrayRegion ba off (min chunkSize remaining), r.ret, r.errno⟩ :
            WriteCall).failed := ⟨by simp only; omega, hint⟩
        refine ⟨?_, ?_, ?_⟩
        · intro e he
          refine ⟨_, List.mem_singleton_self _, hfail, ?_⟩
          simp at he
          exact he.symm
        · intro pre c post hcalls hf
          cases pre with
          | nil =>
            simp at hcalls
            refine ⟨hcalls.2, ?_⟩
            rw [← hcalls.1]; rfl
          | cons p pre1 => simp at hcalls
        · show (WriteCall.accepted _ :: []).flatten <+: _
          simp only [List.flatten, List.append_nil]
          rw [hacc]
          have : r.ret.toNat = 0 := by omega
          rw [this]; simp

theorem writeLoop_inside (rt : Runtime) (ba : List Byte)
    (hba : (ba.length : Int) < 2147483648) :
    ∀ (script : List SysRet) (off : Int) (remaining : Nat),
      0 ≤ off → off + remaining ≤ ba.length →
      (∀ c ∈ (writeLoop rt ba off remaining (min chunkSize remaining)
          (GetByteArrayRegion ba off (min chunkSize remaining)) script).calls,
          -2147483648 ≤ c.ret ∧ c.ret ≤ c.len) →
      (writeLoop rt ba off remaining (min chunkSize remaining)
          (GetByteArrayRegion ba off (min chunkSize remaining)) script).outOfBounds = false := by
  intro script
  induction script with
  | nil => intro off remaining _ _ _; rfl
  | cons r rest ih =>
    intro off remaining h0 h2 hos
    have hhead := hos _ (writeLoop_head_mem ..)
    simp only at hhead
    have hlen : min chunkSize remaining ≤ 128 := by unfold chunkSize; omega
    have hlen2 : min chunkSize remaining ≤ remaining := by omega
    have hj : toJint r.ret = r.ret := toJint_of_range (by omega) (by omega)
    have hbuf := GetByteArrayRegion_inside ba off (min chunkSize remaining) h0 (by omega)
    rw [writeLoop_cons] at hos ⊢
    rw [hj] at hos ⊢
    by_cases hint : r.ret = -1 ∧ r.errno = EINTR
    · rw [if_pos hint] at hos ⊢
      rw [outOfBounds_after, ih off remaining h0 h2
        (fun c hc => hos c (by simp [WriteRun.after]; exact Or.inr hc)), hbuf]
      rfl
    · rw [if_neg hint] at hos ⊢
      by_cases hpos : r.ret > 0
      · have hrm : r.ret ≤ (remaining : Int) := by omega
        have hoff1 : toJint (off + r.ret) = off + r.ret := toJint_of_range (by omega) (by omega)
        have hrem1 : toSizeT ((remaining : Int) - r.ret) = remaining - r.ret.toNat :=
          toSizeT_natCast_sub (by omega) hrm (by omega)
        rw [if_pos hpos, hoff1, hrem1] at hos ⊢
        by_cases hgo : remaining - r.ret.toNat > 0
        · rw [if_pos hgo] at hos ⊢
          rw [outOfBounds_after, ih (off + r.ret) (remaining - r.ret.toNat) (by omega) (by omega)
            (fun c hc => hos c (by simp [WriteRun.after]; exact Or.inr hc)), hbuf]
          rfl
        · rw [if_neg hgo]
          simp [WriteRun.outOfBounds, hbuf]
      · rw [if_neg hpos]
        simp [WriteRun.outOfBounds, hbuf]

/-- C2: on a region inside the array and an OS whose `write(2)` results fit an
`int` and do not exceed the offered length, `write` raises `IOException` if and only
if one of its OS calls returned zero or a negative value that is not an
`EINTR` interruption; that call is the first such call and the last call made,
the exception is the one thrown for it, what the earlier calls took stays
delivered and is the beginning of the requested region, and no other
exception is raised on the way. -/
theorem write_fails_fast (rt : Runtime) (ba : List Byte) (off bufLen : Int)
    (script : List SysRet)
    (hba : (ba.length : Int) < 2147483648)
    (hoff : 0 ≤ off) (hlen : 0 ≤ bufLen) (hin : off + bufLen ≤ ba.length)
    (hcls : rt.FindClass "java/io/IOException" = true)
    (hos : ∀ c ∈ (Java_foundation_icon_ee_ipc_Client_write rt ba off bufLen script).calls,
      -2147483648 ≤ c.ret ∧ c.ret ≤ c.len) :
    ((∃ e, (Java_foundation_icon_ee_ipc_Client_write rt ba off bufLen script).status = .raised e ∧
        e.cls = "java/io/IOException") ↔
      ∃ c ∈ (Java_foundation_icon_ee_ipc_Client_write rt ba off bufLen script).calls, c.failed) ∧
    (∀ pre c post,
      (Java_foundation_icon_ee_ipc_Client_write rt ba off bufLen script).calls = pre ++ c :: post →
      c.failed →
        post = [] ∧ (∀ d ∈ pre, ¬ d.failed) ∧
        (Java_foundation_icon_ee_ipc_Client_write rt ba off bufLen script).status
          = .raised (c.thrown rt)) ∧
    (Java_foundation_icon_ee_ipc_Client_write rt ba off bufLen script).delivered
      <+: (ba.drop off.toNat).take bufLen.toNat ∧
    (Java_foundation_icon_ee_ipc_Client_write rt ba off bufLen script).outOfBounds = false := by
  have hsz : toSizeT bufLen = bufLen.toNat := toSizeT_of_range (by omega) (by omega)
  unfold Java_foundation_icon_ee_ipc_Client_write at hos ⊢
  simp only [hsz] at hos ⊢
  obtain ⟨h1, h2, h3⟩ := writeLoop_fails_fast rt ba hba script off bufLen.toNat hoff
    (by omega) hos
  have h4 := writeLoop_inside rt ba hba script off bufLen.toNat hoff (by omega) hos
  refine ⟨⟨?_, ?_⟩, ?_, h3, h4⟩
  · rintro ⟨e, he, -⟩
    obtain ⟨c, hc, hf, -⟩ := h1 e he
    exact ⟨c, hc, hf⟩
  · rintro ⟨c, hc, hf⟩
    obtain ⟨pre, post, hsplit⟩ := List.append_of_mem hc
    exact ⟨_, (h2 pre c post hsplit hf).2, thrown_cls rt _ _ _ hcls⟩
  · intro pre c post hsplit hf
    refine ⟨(h2 pre c post hsplit hf).1, ?_, (h2 pre c post hsplit hf).2⟩
    intro d hd hdf
    obtain ⟨p1, p2, hp⟩ := List.append_of_mem hd
    have := (h2 p1 d (p2 ++ c :: post) (by rw [hsplit, hp]; simp) hdf).1
    simp at this

set_option maxRecDepth 100000 in
/-- Witness of C2: 100 bytes taken, one interruption, then `EPIPE`. -/
theorem write_fails_fast_witness :
    ((∃ e, (Java_foundation_icon_ee_ipc_Client_write linux sampleArray 1 129
          brokenPipeScript).status = .raised e ∧ e.cls = "java/io/IOException") ↔
      ∃ c ∈ (Java_foundation_icon_ee_ipc_Client_write linux sampleArray 1 129
          brokenPipeScript).calls, c.failed) ∧
    (∀ pre c post,
      (Java_foundation_icon_ee_ipc_Client_write linux sampleArray 1 129
          brokenPipeScript).calls = pre ++ c :: post →
      c.failed →
        post = [] ∧ (∀ d ∈ pre, ¬ d.failed) ∧
        (Java_foundation_icon_ee_ipc_Client_write linux sampleArray 1 129
          brokenPipeScript).status = .raised (c.thrown linux)) ∧
    (Java_foundation_icon_ee_ipc_Client_write linux sampleArray 1 129
        brokenPipeScript).delivered
      <+: (sampleArray.drop (1 : Int).toNat).take (129 : Int).toNat ∧
    (Java_foundation_icon_ee_ipc_Client_write linux sampleArray 1 129
        brokenPipeScript).outOfBounds = false :=
  write_fails_fast linux sampleArray 1 129 brokenPipeScript (by decide) (by decide)
    (by decide) (by decide) (by decide) (by decide)


/-! ## `read`: length asked for and value returned -/

theorem readLoop_nil (rt : Runtime) (ba : List Byte) (off : Int) (len : Nat) :
    readLoop rt ba off len [] = ⟨[], none, none, ba⟩ := rfl

theorem readLoop_cons (rt : Runtime) (ba : List Byte) (off : Int) (len : Nat)
    (r : ReadRet) (rest : List ReadRet) :
    readLoop rt ba off len (r :: rest) =
      if r.ret = -1 ∧ r.errno = EINTR then
        (readLoop rt ba off len rest).after ⟨len, r.ret, r.errno⟩
      else if r.ret = -1 then
        ⟨[⟨len, r.ret, r.errno⟩], some (toJint r.ret),
          some (JNU_ThrowByNameWithLastError rt "java/io/IOException" r.errno "read"), ba⟩
      else if r.ret = 0 then
        ⟨[⟨len, r.ret, r.errno⟩], some (toJint (-1)), none, ba⟩
      else
        match SetByteArrayRegion ba off (toJint r.ret) r.buf with
        | some ba1 => ⟨[⟨len, r.ret, r.errno⟩], some (toJint r.ret), none, ba1⟩
        | none =>
          ⟨[⟨len, r.ret, r.errno⟩], some (toJint r.ret),
            some ⟨"java/lang/ArrayIndexOutOfBoundsException", none⟩, ba⟩ := rfl

theorem readLoop_calls_len (rt : Runtime) (ba : List Byte) (off : Int) (len : Nat) :
    ∀ (script : List ReadRet), ∀ c ∈ (readLoop rt ba off len script).calls, c.len = len := by
  intro script
  induction script with
  | nil => intro c hc; simp [readLoop_nil] at hc
  | cons r rest ih =>
    intro c hc
    rw [readLoop_cons] at hc
    split_ifs at hc
    · simp only [ReadRun.after, List.mem_cons] at hc
      rcases hc with rfl | hc
      · rfl
      · exact ih c hc
    · simp at hc; rw [hc]
    · simp at hc; rw [hc]
    · split at hc <;> (simp at hc; rw [hc])

theorem readLoop_ret (rt : Runtime) (ba : List Byte) (off : Int) (len : Nat) :
    ∀ (script : List ReadRet) (v : Int), (readLoop rt ba off len script).ret = some v →
      v = -1 ∨ ∃ c ∈ (readLoop rt ba off len script).calls, v = toJint c.ret := by
  intro script
  induction script with
  | nil => intro v hv; simp [readLoop_nil] at hv
  | cons r rest ih =>
    intro v hv
    rw [readLoop_cons] at hv ⊢
    split_ifs at hv ⊢
    · rcases ih v (by simpa [ReadRun.after] using hv) with h | ⟨c, hc, h⟩
      · exact Or.inl h
      · exact Or.inr ⟨c, by simp [ReadRun.after]; exact Or.inr hc, h⟩
    · simp at hv; right; exact ⟨_, List.mem_singleton_self _, hv.symm⟩
    · simp at hv; left; rw [← hv]; rfl
    · split at hv <;>
        (simp at hv; right; exact ⟨_, List.mem_singleton_self _, hv.symm⟩)

theorem readLen_of_le (off baLen : Int)
    (ho1 : -2147483648 ≤ off) (ho2 : off < 2147483648)
    (hb1 : -2147483648 ≤ baLen) (hb2 : baLen < 2147483648) (hcap : off ≤ baLen) :
    (readLen off baLen : Int) = min 128 (baLen - off) := by
  unfold readLen toSizeT toJint chunkSize
  simp only
  split_ifs <;> omega

/-- C3 as stated fails: with `off = 5` and `baLen = 3` the OS is asked for 128
bytes and `read` returns 128 with no exception, while `min(128, baLen - off)`
is -2.  The chunk bound of 128 holds there; the capacity bound does not. -/
theorem read_bound_counterexample :
    (Java_foundation_icon_ee_ipc_Client_read linux wideDest 5 3 fullChunkScript).calls
      = [⟨128, 128, 0⟩] ∧
    (Java_foundation_icon_ee_ipc_Client_read linux wideDest 5 3 fullChunkScript).ret = some 128 ∧
    (Java_foundation_icon_ee_ipc_Client_read linux wideDest 5 3 fullChunkScript).exn = none ∧
    (Java_foundation_icon_ee_ipc_Client_read linux wideDest 5 3 fullChunkScript).ba
      = List.replicate 5 0 ++ List.replicate 128 1 ++ List.replicate 67 0 ∧
    ¬ ((128 : Int) ≤ min 128 (3 - 5)) := by
  set_option maxRecDepth 100000 in decide

theorem readLen_le_chunk (off baLen : Int) : readLen off baLen ≤ 128 := by
  unfold readLen chunkSize
  simp only
  split_ifs <;> omega

theorem readLen_of_gt (off baLen : Int) (hlt : baLen < off)
    (hno : -2147483648 ≤ baLen - off) : readLen off baLen = 128 := by
  unfold readLen toSizeT toJint chunkSize
  simp only
  split_ifs <;> omega

theorem readLen_of_wrap (off baLen : Int) (h1 : -4294967296 < baLen - off)
    (h2 : baLen - off < -2147483648) :
    (readLen off baLen : Int) = min 128 (baLen - off + 4294967296) := by
  unfold readLen toSizeT toJint chunkSize
  simp only
  split_ifs <;> omega

/-- C3, amended: for every 32-bit `off` and `baLen`, every OS call of `read`
asks for at most one chunk of 128 bytes, and when each `read(2)` returns a
value that fits an `int` and is at most the length it was given, `read`
returns at most 128.  For `off ≤ baLen` the request is exactly
`min(128, baLen - off)` and the returned value is at most that.  For
`off > baLen` the request is not cut down to the capacity: it is the full 128
bytes, or `min(128, baLen - off + 2^32)` when the 32-bit subtraction wraps. -/
theorem read_bounded (rt : Runtime) (ba : List Byte) (off baLen : Int)
    (script : List ReadRet)
    (ho1 : -2147483648 ≤ off) (ho2 : off < 2147483648)
    (hb1 : -2147483648 ≤ baLen) (hb2 : baLen < 2147483648)
    (hos : ∀ c ∈ (Java_foundation_icon_ee_ipc_Client_read rt ba off baLen script).calls,
      -2147483648 ≤ c.ret ∧ c.ret ≤ c.len) :
    (∀ c ∈ (Java_foundation_icon_ee_ipc_Client_read rt ba off baLen script).calls,
      c.len ≤ 128) ∧
    (∀ v, (Java_foundation_icon_ee_ipc_Client_read rt ba off baLen script).ret = some v →
      v ≤ 128) ∧
    (off ≤ baLen →
      (∀ c ∈ (Java_foundation_icon_ee_ipc_Client_read rt ba off baLen script).calls,
        (c.len : Int) = min 128 (baLen - off)) ∧
      (∀ v, (Java_foundation_icon_ee_ipc_Client_read rt ba off baLen script).ret = some v →
        v ≤ min 128 (baLen - off))) ∧
    (baLen < off → -2147483648 ≤ baLen - off →
      ∀ c ∈ (Java_foundation_icon_ee_ipc_Client_read rt ba off baLen script).calls,
        c.len = 128) ∧
    (baLen - off < -2147483648 →
      ∀ c ∈ (Java_foundation_icon_ee_ipc_Client_read rt ba off baLen script).calls,
        (c.len : Int) = min 128 (baLen - off + 4294967296)) := by
  unfold Java_foundation_icon_ee_ipc_Client_read at hos ⊢
  have hcl := readLoop_calls_len rt ba off (readLen off baLen) script
  have hchunk := readLen_le_chunk off baLen
  have hret : ∀ v, (readLoop rt ba off (readLen off baLen) script).ret = some v →
      v ≤ (readLen off baLen : Int) ∨ v = -1 := by
    intro v hv
    rcases readLoop_ret rt ba off (readLen off baLen) script v hv with h | ⟨c, hc, h⟩
    · exact Or.inr h
    · have h1 := hos c hc
      have h2 := hcl c hc
      have hj : toJint c.ret = c.ret := toJint_of_range (by omega) (by omega)
      left; omega
  refine ⟨fun c hc => by rw [hcl c hc]; exact hchunk, ?_, ?_, ?_, ?_⟩
  · intro v hv
    rcases hret v hv with h | h <;> omega
  · intro hcap
    have hlen := readLen_of_le off baLen ho1 ho2 hb1 hb2 hcap
    refine ⟨fun c hc => by rw [hcl c hc, hlen], ?_⟩
    intro v hv
    rcases hret v hv with h | h <;> omega
  · intro hlt hno c hc
    rw [hcl c hc, readLen_of_gt off baLen hlt hno]
  · intro hw c hc
    rw [hcl c hc, readLen_of_wrap off baLen (by omega) hw]

/-- Witness of the amended C3: capacity 3, one interruption, two bytes delivered. -/
theorem read_bounded_witness :
    (∀ c ∈ (Java_foundation_icon_ee_ipc_Client_read linux sampleDest 1 4 sampleReadScript).calls,
      c.len ≤ 128) ∧
    (∀ v, (Java_foundation_icon_ee_ipc_Client_read linux sampleDest 1 4 sampleReadScript).ret
      = some v → v ≤ 128) ∧
    (∀ c ∈ (Java_foundation_icon_ee_ipc_Client_read linux sampleDest 1 4 sampleReadScript).calls,
      (c.len : Int) = min 128 (4 - 1)) ∧
    (∀ v, (Java_foundation_icon_ee_ipc_Client_read linux sampleDest 1 4 sampleReadScript).ret
      = some v → v ≤ min 128 (4 - 1)) :=
  ⟨(read_bounded linux sampleDest 1 4 sampleReadScript (by decide) (by decide) (by decide)
      (by decide) (by decide)).1,
    (read_bounded linux sampleDest 1 4 sampleReadScript (by decide) (by decide) (by decide)
      (by decide) (by decide)).2.1,
    ((read_bounded linux sampleDest 1 4 sampleReadScript (by decide) (by decide) (by decide)
      (by decide) (by decide)).2.2.1 (by decide)).1,
    ((read_bounded linux sampleDest 1 4 sampleReadScript (by decide) (by decide) (by decide)
      (by decide) (by decide)).2.2.1 (by decide)).2⟩

/-! ## `read`: interruptions and the three outcomes -/

theorem readLoop_interrupted (rt : Runtime) (ba : List Byte) (off : Int) (len : Nat)
    (rest : List ReadRet) :
    ∀ (pre : List ReadRet), (∀ e ∈ pre, e.ret = -1 ∧ e.errno = EINTR) →
      readLoop rt ba off len (pre ++ rest) =
        ⟨pre.map (fun e => ⟨len, e.ret, e.errno⟩) ++ (readLoop rt ba off len rest).calls,
          (readLoop rt ba off len rest).ret, (readLoop rt ba off len rest).exn,
          (readLoop rt ba off len rest).ba⟩ := by
  intro pre
  induction pre with
  | nil => intro _; rfl
  | cons e pre ih =>
    intro h
    have he := h e (List.mem_cons_self _ _)
    rw [List.cons_append, readLoop_cons, if_pos he, ih (fun x hx => h x (List.mem_cons_of_mem _ hx))]
    rfl

theorem SetByteArrayRegion_inside (ba : List Byte) (start len : Int) (buf : List Byte)
    (h0 : 0 ≤ start) (h1 : 0 ≤ len) (h2 : start + len ≤ ba.length) :
    SetByteArrayRegion ba start len buf =
      some (ba.take start.toNat ++ buf.take len.toNat ++ ba.drop (start.toNat + len.toNat)) := by
  unfold SetByteArrayRegion; rw [if_pos ⟨h0, h1, h2⟩]

theorem region_take (ba buf : List Byte) (o k : Nat) (ho : o ≤ ba.length) :
    (ba.take o ++ buf.take k ++ ba.drop (o + k)).take o = ba.take o := by
  rw [List.append_assoc]
  exact List.take_left' (by simp; omega)

theorem region_mid (ba buf : List Byte) (o k : Nat) (ho : o ≤ ba.length) (hk : k ≤ buf.length) :
    ((ba.take o ++ buf.take k ++ ba.drop (o + k)).drop o).take k = buf.take k := by
  rw [List.append_assoc, List.drop_left' (by simp; omega)]
  exact List.take_left' (by simp; omega)

theorem region_drop (ba buf : List Byte) (o k : Nat) (ho : o ≤ ba.length) (hk : k ≤ buf.length) :
    (ba.take o ++ buf.take k ++ ba.drop (o + k)).drop (o + k) = ba.drop (o + k) :=
  List.drop_left' (by simp; omega)

theorem region_length (ba buf : List Byte) (o k : Nat) (ho : o + k ≤ ba.length)
    (hk : k ≤ buf.length) :
    (ba.take o ++ buf.take k ++ ba.drop (o + k)).length = ba.length := by
  simp; omega

/-- C4: let `r` be the result of the final `read(2)` of a `read` call, the one
that is not an `EINTR` interruption, on a destination region
`0 ≤ off ≤ baLen ≤ length` and with `r` either -1 or a count of at most the
length asked for.  If `r > 0`, `read` returns `r` with no exception and
`ba[off .. off+r)` holds the delivered bytes, all other bytes unchanged; if
`r = 0`, it returns the end-of-stream value -1 with no exception and the array
unchanged; if `r = -1`, it raises `IOException`.  The end-of-stream outcome
(-1, no exception) occurs exactly for `r = 0`, and 0 is never returned. -/
theorem read_outcomes (rt : Runtime) (ba : List Byte) (off baLen : Int)
    (pre : List ReadRet) (r : ReadRet) (rest : List ReadRet)
    (hba : (ba.length : Int) < 2147483648)
    (hoff : 0 ≤ off) (hcap : off ≤ baLen) (hin : baLen ≤ ba.length)
    (hcls : rt.FindClass "java/io/IOException" = true)
    (hpre : ∀ e ∈ pre, e.ret = -1 ∧ e.errno = EINTR)
    (hr : ¬ (r.ret = -1 ∧ r.errno = EINTR))
    (hos : r.ret = -1 ∨ (0 ≤ r.ret ∧ r.ret ≤ readLen off baLen ∧ r.ret ≤ r.buf.length)) :
    (0 < r.ret →
      (Java_foundation_icon_ee_ipc_Client_read rt ba off baLen (pre ++ r :: rest)).ret
        = some r.ret ∧
      (Java_foundation_icon_ee_ipc_Client_read rt ba off baLen (pre ++ r :: rest)).exn = none ∧
      ((Java_foundation_icon_ee_ipc_Client_read rt ba off baLen (pre ++ r :: rest)).ba.drop
        off.toNat).take r.ret.toNat = r.buf.take r.ret.toNat ∧
      (Java_foundation_icon_ee_ipc_Client_read rt ba off baLen (pre ++ r :: rest)).ba.take
        off.toNat = ba.take off.toNat ∧
      (Java_foundation_icon_ee_ipc_Client_read rt ba off baLen (pre ++ r :: rest)).ba.drop
        (off.toNat + r.ret.toNat) = ba.drop (off.toNat + r.ret.toNat) ∧
      (Java_foundation_icon_ee_ipc_Client_read rt ba off baLen (pre ++ r :: rest)).ba.length
        = ba.length) ∧
    (r.ret = 0 →
      (Java_foundation_icon_ee_ipc_Client_read rt ba off baLen (pre ++ r :: rest)).ret
        = some endOfStream ∧
      (Java_foundation_icon_ee_ipc_Client_read rt ba off baLen (pre ++ r :: rest)).exn = none ∧
      (Java_foundation_icon_ee_ipc_Client_read rt ba off baLen (pre ++ r :: rest)).ba = ba) ∧
    (r.ret = -1 →
      (∃ e, (Java_foundation_icon_ee_ipc_Client_read rt ba off baLen (pre ++ r :: rest)).exn
        = some e ∧ e.cls = "java/io/IOException" ∧
        e = JNU_ThrowByNameWithLastError rt "java/io/IOException" r.errno "read") ∧
      (Java_foundation_icon_ee_ipc_Client_read rt ba off baLen (pre ++ r :: rest)).ba = ba) ∧
    (((Java_foundation_icon_ee_ipc_Client_read rt ba off baLen (pre ++ r :: rest)).ret
        = some endOfStream ∧
      (Java_foundation_icon_ee_ipc_Client_read rt ba off baLen (pre ++ r :: rest)).exn = none)
      ↔ r.ret = 0) ∧
    (Java_foundation_icon_ee_ipc_Client_read rt ba off baLen (pre ++ r :: rest)).ret ≠ some 0 ∧
    (Java_foundation_icon_ee_ipc_Client_read rt ba off baLen (pre ++ r :: rest)).calls.length
      = pre.length + 1 := by
  have hlen := readLen_of_le off baLen (by omega) (by omega) (by omega) (by omega) hcap
  unfold Java_foundation_icon_ee_ipc_Client_read endOfStream
  rw [readLoop_interrupted rt ba off _ (r :: rest) pre hpre, readLoop_cons, if_neg hr]
  simp only
  by_cases hm : r.ret = -1
  · rw [if_pos hm]
    simp only [hm]
    refine ⟨by omega, by omega, fun _ => ⟨⟨_, rfl, thrown_cls rt _ _ _ hcls, rfl⟩, trivial⟩,
      ?_, ?_, by simp⟩
    · simp
    · simp [toJint]
  · rw [if_neg hm]
    by_cases hz : r.ret = 0
    · rw [if_pos hz]
      simp only [hz]
      refine ⟨by omega, fun _ => ⟨by simp [toJint], trivial, trivial⟩, by omega, ?_, ?_, by simp⟩
      · simp [toJint]
      · simp [toJint]
    · rw [if_neg hz]
      have hpos : 0 < r.ret := by omega
      have hle : r.ret ≤ readLen off baLen := by omega
      have hbl : r.ret ≤ r.buf.length := by omega
      have hj : toJint r.ret = r.ret := toJint_of_range (by omega) (by omega)
      rw [hj, SetByteArrayRegion_inside ba off r.ret r.buf hoff (by omega) (by omega)]
      simp only
      refine ⟨fun _ => ⟨trivial, trivial, ?_, ?_, ?_, ?_⟩, fun h => absurd h hz, fun h => absurd h hm,
        ?_, ?_, by simp⟩
      · exact region_mid ba r.buf _ _ (by omega) (by omega)
      · exact region_take ba r.buf _ _ (by omega)
      · exact region_drop ba r.buf _ _ (by omega) (by omega)
      · exact region_length ba r.buf _ _ (by omega) (by omega)
      · constructor
        · rintro ⟨h, -⟩
          simp at h; omega
        · intro h; exact absurd h hz
      · simp; omega

/-- Witness of C4: one interruption, then two bytes delivered into `ba[1 .. 3)`. -/
theorem read_outcomes_witness :
    (Java_foundation_icon_ee_ipc_Client_read linux sampleDest 1 4
        ([⟨-1, 4, []⟩] ++ ⟨2, 0, [8, 9]⟩ :: [])).ret = some 2 ∧
    (Java_foundation_icon_ee_ipc_Client_read linux sampleDest 1 4
        ([⟨-1, 4, []⟩] ++ ⟨2, 0, [8, 9]⟩ :: [])).exn = none ∧
    ((Java_foundation_icon_ee_ipc_Client_read linux sampleDest 1 4
        ([⟨-1, 4, []⟩] ++ ⟨2, 0, [8, 9]⟩ :: [])).ba.drop (1 : Int).toNat).take (2 : Int).toNat
      = [8, 9] ∧
    (Java_foundation_icon_ee_ipc_Client_read linux sampleDest 1 4
        ([⟨-1, 4, []⟩] ++ ⟨2, 0, [8, 9]⟩ :: [])).ba.take (1 : Int).toNat
      = sampleDest.take (1 : Int).toNat ∧
    (Java_foundation_icon_ee_ipc_Client_read linux sampleDest 1 4
        ([⟨-1, 4, []⟩] ++ ⟨2, 0, [8, 9]⟩ :: [])).ba.drop ((1 : Int).toNat + (2 : Int).toNat)
      = sampleDest.drop ((1 : Int).toNat + (2 : Int).toNat) ∧
    (Java_foundation_icon_ee_ipc_Client_read linux sampleDest 1 4
        ([⟨-1, 4, []⟩] ++ ⟨2, 0, [8, 9]⟩ :: [])).ba.length = sampleDest.length :=
  (read_outcomes linux sampleDest 1 4 [⟨-1, 4, []⟩] ⟨2, 0, [8, 9]⟩ [] (by decide) (by decide)
    (by decide) (by decide) (by decide) (by decide) (by decide) (by decide)).1 (by decide)

/-! ## Reading a finite stream to its end -/

theorem readSession_nil (rt : Runtime) (s : Sock) : readSession rt s [] = [] := by
  unfold readSession; rfl

theorem readSession_cons (rt : Runtime) (s : Sock) (q : ReadReq) (qs : List ReadReq) (v : Int)
    (h : (readOn rt s q).ret = some v) :
    readSession rt s (q :: qs) =
      readOn rt s q :: readSession rt (s.after (readOn rt s q).calls) qs := by
  rw [readSession]
  simp only [h]

theorem readLoop_zero (rt : Runtime) (ba : List Byte) (off : Int) (len errno : Nat)
    (buf : List Byte) (rest : List ReadRet) :
    readLoop rt ba off len (⟨0, errno, buf⟩ :: rest)
      = ⟨[⟨len, 0, errno⟩], some endOfStream, none, ba⟩ := by
  rw [readLoop_cons]
  simp [toJint, endOfStream]

theorem read_step (rt : Runtime) (q : ReadReq) (hq : q.valid) (unread : List Byte) :
    (readOn rt ⟨unread, true⟩ q).exn = none ∧
    (∃ v, (readOn rt ⟨unread, true⟩ q).ret = some v) ∧
    (readOn rt ⟨unread, true⟩ q).count ≤ unread.length ∧
    (unread ≠ [] →
      1 ≤ (readOn rt ⟨unread, true⟩ q).count ∧
      (readOn rt ⟨unread, true⟩ q).ret = some (((readOn rt ⟨unread, true⟩ q).count : Nat) : Int)) ∧
    (unread = [] → (readOn rt ⟨unread, true⟩ q).ret = some endOfStream) ∧
    (readOn rt ⟨unread, true⟩ q).stored q.off
      = unread.take (readOn rt ⟨unread, true⟩ q).count ∧
    (⟨unread, true⟩ : Sock).after (readOn rt ⟨unread, true⟩ q).calls
      = ⟨unread.drop (readOn rt ⟨unread, true⟩ q).count, true⟩ := by
  unfold readOn
  obtain ⟨h0, h1, h2, h3⟩ := hq
  have hlen := readLen_of_le q.off q.baLen (by omega) (by omega) (by omega) (by omega) (by omega)
  have hlen0 : readLen q.off q.baLen ≠ 0 := by omega
  by_cases hu : unread = []
  · subst hu
    have hr : (⟨[], true⟩ : Sock).read q.want (readLen q.off q.baLen) = some ⟨0, 0, []⟩ := by
      simp [Sock.read, hlen0]
    rw [hr]
    unfold Java_foundation_icon_ee_ipc_Client_read
    simp only [Option.toList, readLoop_zero]
    refine ⟨trivial, ⟨_, rfl⟩, ?_, fun h => absurd rfl h, fun _ => trivial, ?_, ?_⟩
    · simp [ReadRun.count, endOfStream]
    · simp [ReadRun.stored, ReadRun.count, endOfStream]
    · simp [Sock.after, ReadRun.count, endOfStream]
  · have hul : 1 ≤ unread.length := by
      cases unread with
      | nil => exact absurd rfl hu
      | cons a l => simp
    obtain ⟨k, hk⟩ : ∃ k, k = min (min (readLen q.off q.baLen) unread.length) (max q.want 1) :=
      ⟨_, rfl⟩
    have hk1 : 1 ≤ k := by omega
    have hk2 : k ≤ unread.length := by omega
    have hk3 : (k : Int) ≤ readLen q.off q.baLen := by omega
    have hr : (⟨unread, true⟩ : Sock).read q.want (readLen q.off q.baLen)
        = some ⟨k, 0, unread.take k⟩ := by
      simp only [Sock.read, if_neg hlen0, if_neg hu, ← hk]
    rw [hr]
    unfold Java_foundation_icon_ee_ipc_Client_read
    simp only [Option.toList, readLoop_cons]
    have hj : toJint (k : Int) = k := toJint_of_range (by omega) (by omega)
    rw [if_neg (by intro h; have := h.1; omega), if_neg (by omega), if_neg (by omega), hj,
      SetByteArrayRegion_inside q.ba q.off k _ h0 (by omega) (by omega)]
    simp only [ReadRun.count, ReadRun.stored, Option.getD_some, Int.toNat_ofNat]
    refine ⟨trivial, ⟨_, rfl⟩, hk2, fun _ => ⟨hk1, trivial⟩, fun h => absurd h hu, ?_, ?_⟩
    · rw [region_mid q.ba _ _ _ (by omega) (by simp; omega)]
      simp
    · simp [Sock.after]

theorem sessionCount_cons (run : ReadRun) (runs : List ReadRun) :
    sessionCount (run :: runs) = run.count + sessionCount runs := by
  simp [sessionCount]

theorem sessionStored_cons (q : ReadReq) (qs : List ReadReq) (run : ReadRun)
    (runs : List ReadRun) :
    sessionStored (q :: qs) (run :: runs) = run.stored q.off ++ sessionStored qs runs := by
  simp [sessionStored]

theorem readSession_stream (rt : Runtime) :
    ∀ (reqs : List ReadReq) (unread : List Byte), (∀ q ∈ reqs, q.valid) →
      (readSession rt ⟨unread, true⟩ reqs).length = reqs.length ∧
      (∀ r ∈ readSession rt ⟨unread, true⟩ reqs, r.exn = none) ∧
      (∀ i, i < reqs.length →
        sessionCount ((readSession rt ⟨unread, true⟩ reqs).take i) ≤ unread.length ∧
        sessionStored (reqs.take i) ((readSession rt ⟨unread, true⟩ reqs).take i)
          = unread.take (sessionCount ((readSession rt ⟨unread, true⟩ reqs).take i)) ∧
        ∃ run, (readSession rt ⟨unread, true⟩ reqs)[i]? = some run ∧
          (run.ret = some endOfStream ↔
            sessionCount ((readSession rt ⟨unread, true⟩ reqs).take i) = unread.length) ∧
          (sessionCount ((readSession rt ⟨unread, true⟩ reqs).take i) < unread.length →
            1 ≤ run.count ∧ run.ret = some ((run.count : Nat) : Int))) ∧
      (unread.length < reqs.length →
        ∃ r ∈ readSession rt ⟨unread, true⟩ reqs, r.ret = some endOfStream) := by
  intro reqs
  induction reqs with
  | nil =>
    intro unread _
    simp [readSession_nil]
  | cons q qs ih =>
    intro unread hv
    obtain ⟨s1, ⟨v, s2⟩, s3, s4, s5, s6, s7⟩ := read_step rt q (hv q (List.mem_cons_self _ _)) unread
    obtain ⟨i1, i2, i3, i4⟩ := ih (unread.drop (readOn rt ⟨unread, true⟩ q).count)
      (fun x hx => hv x (List.mem_cons_of_mem _ hx))
    rw [readSession_cons rt _ q qs v s2, s7]
    refine ⟨by simp [i1], ?_, ?_, ?_⟩
    · intro r hr
      rcases List.mem_cons.1 hr with rfl | hr
      · exact s1
      · exact i2 r hr
    · intro i hi
      cases i with
      | zero =>
        simp only [List.take_zero, List.getElem?_cons_zero]
        refine ⟨by simp [sessionCount], by simp [sessionCount, sessionStored], _, rfl, ?_, ?_⟩
        · have hc0 : sessionCount [] = 0 := rfl
          rw [hc0]
          constructor
          · intro h
            by_contra hne
            have hu : unread ≠ [] := by
              intro hu; apply hne; rw [hu]; rfl
            have := (s4 hu).2
            rw [h] at this
            simp only [endOfStream, Option.some.injEq] at this
            omega
          · intro h
            exact s5 (List.length_eq_zero.1 h.symm)
        · intro h
          have hc0 : sessionCount [] = 0 := rfl
          rw [hc0] at h
          exact s4 (by intro hu; rw [hu] at h; simp at h)
      | succ j =>
        have hj : j < qs.length := by simpa using hi
        obtain ⟨j1, j2, run, j3, j4, j5⟩ := i3 j hj
        simp only [List.length_drop] at j1 j4 j5
        simp only [List.take_succ_cons, List.getElem?_cons_succ, sessionCount_cons,
          sessionStored_cons]
        refine ⟨by omega, ?_, run, j3, ?_, ?_⟩
        · rw [s6, j2, List.take_add]
        · rw [j4]; omega
        · intro h; exact j5 (by omega)
    · intro hlt
      by_cases hu : unread = []
      · exact ⟨_, List.mem_cons_self _ _, s5 hu⟩
      · have h1 := (s4 hu).1
        obtain ⟨r, hr, he⟩ := i4 (by simp only [List.length_drop]; simp at hlt; omega)
        exact ⟨r, List.mem_cons_of_mem _ hr, he⟩

/-- C5: the peer sends `sent` and closes; the OS gives each `read(2)` between 1
and the requested number of the unread bytes while any remain, and 0 after.
For every sequence of `read` calls on regions with room for at least one
byte: every call returns and none raises; a call returns the end-of-stream
value exactly when the counts returned before it sum to `sent.length`, and
then the bytes stored by the earlier calls are exactly `sent`; any other call
returns a count of at least 1; the stored bytes are always the first bytes of
`sent`, as many as were counted; and with more calls than bytes sent, the
end of stream is reached. -/
theorem read_stream_to_end (rt : Runtime) (sent : List Byte) (reqs : List ReadReq)
    (hv : ∀ q ∈ reqs, q.valid) :
    (readSession rt ⟨sent, true⟩ reqs).length = reqs.length ∧
    (∀ r ∈ readSession rt ⟨sent, true⟩ reqs, r.exn = none) ∧
    (∀ i run, (readSession rt ⟨sent, true⟩ reqs)[i]? = some run →
      (run.ret = some endOfStream ↔
        sessionCount ((readSession rt ⟨sent, true⟩ reqs).take i) = sent.length) ∧
      (run.ret = some endOfStream →
        sessionStored (reqs.take i) ((readSession rt ⟨sent, true⟩ reqs).take i) = sent) ∧
      (run.ret ≠ some endOfStream → 1 ≤ run.count ∧ run.ret = some ((run.count : Nat) : Int)) ∧
      sessionCount ((readSession rt ⟨sent, true⟩ reqs).take i) ≤ sent.length ∧
      sessionStored (reqs.take i) ((readSession rt ⟨sent, true⟩ reqs).take i)
        = sent.take (sessionCount ((readSession rt ⟨sent, true⟩ reqs).take i))) ∧
    (sent.length < reqs.length →
      ∃ r ∈ readSession rt ⟨sent, true⟩ reqs, r.ret = some endOfStream) := by
  obtain ⟨h1, h2, h3, h4⟩ := readSession_stream rt reqs sent hv
  refine ⟨h1, h2, ?_, h4⟩
  intro i run hrun
  have hi : i < reqs.length := by
    rw [← h1]
    by_contra hge
    rw [List.getElem?_eq_none (by omega)] at hrun
    cases hrun
  obtain ⟨c1, c2, run1, c3, c4, c5⟩ := h3 i hi
  rw [hrun] at c3
  cases c3
  refine ⟨c4, ?_, ?_, c1, c2⟩
  · intro he
    rw [c2, c4.1 he, List.take_length]
  · intro hne
    apply c5
    rcases Nat.lt_or_ge (sessionCount ((readSession rt ⟨sent, true⟩ reqs).take i))
      sent.length with h | h
    · exact h
    · exact absurd (c4.2 (by omega)) hne

/-- Witness of C5: five bytes read by calls of capacity 3, 2 and 1, then end of stream. -/
theorem read_stream_to_end_witness :
    (∀ q ∈ sampleReqs, q.valid) ∧
    (readSession linux ⟨[1, 2, 3, 4, 5], true⟩ sampleReqs).map (fun r => r.ret)
      = [some 2, some 2, some 1, some endOfStream] ∧
    (∀ r ∈ readSession linux ⟨[1, 2, 3, 4, 5], true⟩ sampleReqs, r.exn = none) ∧
    sessionStored (sampleReqs.take 3) ((readSession linux ⟨[1, 2, 3, 4, 5], true⟩
      sampleReqs).take 3) = [1, 2, 3, 4, 5] :=
  ⟨by decide, by decide, (read_stream_to_end linux [1, 2, 3, 4, 5] sampleReqs (by decide)).2.1,
    ((read_stream_to_end linux [1, 2, 3, 4, 5] sampleReqs (by decide)).2.2.1 3 _ rfl).2.1
      (by decide)⟩

/-! ## Interruptions of `write(2)` -/

theorem writeLoop_interrupted (rt : Runtime) (ba : List Byte) (off : Int) (remaining len : Nat)
    (buf : Option (List Byte)) (rest : List SysRet) :
    ∀ (pre : List SysRet), (∀ e ∈ pre, e.interrupted) →
      writeLoop rt ba off remaining len buf (pre ++ rest) =
        ⟨pre.map (fun e => ⟨len, buf, e.ret, e.errno⟩) ++
            (writeLoop rt ba off remaining len buf rest).calls,
          (writeLoop rt ba off remaining len buf rest).status⟩ := by
  intro pre
  induction pre with
  | nil => intro _; rfl
  | cons e pre ih =>
    intro h
    have he := h e (List.mem_cons_self _ _)
    have he1 : toJint e.ret = -1 ∧ e.errno = EINTR := by
      rw [he.1]; exact ⟨by decide, he.2⟩
    rw [List.cons_append, writeLoop_cons, if_pos he1,
      ih (fun x hx => h x (List.mem_cons_of_mem _ hx))]
    rfl

theorem delivered_interrupted (len : Nat) (buf : Option (List Byte)) (pre : List SysRet)
    (h : ∀ e ∈ pre, e.interrupted) (calls : List WriteCall) (st st1 : Status) :
    (⟨pre.map (fun e => ⟨len, buf, e.ret, e.errno⟩) ++ calls, st⟩ : WriteRun).delivered
      = (⟨calls, st1⟩ : WriteRun).delivered := by
  induction pre with
  | nil => rfl
  | cons e pre ih =>
    have he := h e (List.mem_cons_self _ _)
    have := ih (fun x hx => h x (List.mem_cons_of_mem _ hx))
    simp only [WriteRun.delivered] at this ⊢
    simp only [List.map_cons, List.cons_append, List.flatten_cons]
    rw [this]
    simp [WriteCall.accepted, he.1]

theorem filter_interrupted (len : Nat) (buf : Option (List Byte)) (pre : List SysRet)
    (h : ∀ e ∈ pre, e.interrupted) (calls : List WriteCall) :
    (pre.map (fun e => (⟨len, buf, e.ret, e.errno⟩ : WriteCall)) ++ calls).filter
        (fun c => ¬ c.interrupted)
      = calls.filter (fun c => ¬ c.interrupted) := by
  induction pre with
  | nil => rfl
  | cons e pre ih =>
    have he := h e (List.mem_cons_self _ _)
    have := ih (fun x hx => h x (List.mem_cons_of_mem _ hx))
    simp only [List.map_cons, List.cons_append]
    rw [List.filter_cons_of_neg (by simpa [WriteCall.interrupted] using he), this]

theorem writeLoop_insert_interrupted (rt : Runtime) (ba : List Byte) (pre s2 : List SysRet)
    (hpre : ∀ e ∈ pre, e.interrupted) :
    ∀ (s1 : List SysRet) (off : Int) (remaining len : Nat) (buf : Option (List Byte)),
      (writeLoop rt ba off remaining len buf (s1 ++ (pre ++ s2))).status
        = (writeLoop rt ba off remaining len buf (s1 ++ s2)).status ∧
      (writeLoop rt ba off remaining len buf (s1 ++ (pre ++ s2))).delivered
        = (writeLoop rt ba off remaining len buf (s1 ++ s2)).delivered ∧
      (writeLoop rt ba off remaining len buf (s1 ++ (pre ++ s2))).calls.filter
          (fun c => ¬ c.interrupted)
        = (writeLoop rt ba off remaining len buf (s1 ++ s2)).calls.filter
          (fun c => ¬ c.interrupted) := by
  intro s1
  induction s1 with
  | nil =>
    intro off remaining len buf
    rw [List.nil_append, List.nil_append, writeLoop_interrupted rt ba off remaining len buf s2 pre hpre]
    exact ⟨rfl, delivered_interrupted len buf pre hpre _ _ _, filter_interrupted len buf pre hpre _⟩
  | cons r s1 ih =>
    intro off remaining len buf
    rw [List.cons_append, List.cons_append, writeLoop_cons, writeLoop_cons]
    split_ifs
    · obtain ⟨a, b, c⟩ := ih off remaining len buf
      refine ⟨a, ?_, ?_⟩
      · rw [delivered_after, delivered_after, b]
      · simp only [WriteRun.after, List.filter_cons]
        rw [c]
    · obtain ⟨a, b, c⟩ := ih (toJint (off + toJint r.ret))
        (toSizeT ((remaining : Int) - toJint r.ret))
        (min chunkSize (toSizeT ((remaining : Int) - toJint r.ret)))
        (GetByteArrayRegion ba (toJint (off + toJint r.ret))
          (min chunkSize (toSizeT ((remaining : Int) - toJint r.ret))))
      refine ⟨a, ?_, ?_⟩
      · rw [delivered_after, delivered_after, b]
      · simp only [WriteRun.after, List.filter_cons]
        rw [c]
    · exact ⟨rfl, rfl, rfl⟩
    · exact ⟨rfl, rfl, rfl⟩

theorem writeLoop_failure_once (rt : Runtime) (ba : List Byte) (r : SysRet) (rest : List SysRet)
    (h1 : r.ret = -1) (h2 : r.errno ≠ EINTR) :
    ∀ (s1 : List SysRet) (off : Int) (remaining len : Nat) (buf : Option (List Byte)),
      (writeLoop rt ba off remaining len buf s1).status = .blocked →
      ∃ c : WriteCall, c.ret = r.ret ∧ c.errno = r.errno ∧
        (writeLoop rt ba off remaining len buf (s1 ++ r :: rest)).calls
          = (writeLoop rt ba off remaining len buf s1).calls ++ [c] ∧
        (writeLoop rt ba off remaining len buf (s1 ++ r :: rest)).status
          = .raised (c.thrown rt) := by
  intro s1
  induction s1 with
  | nil =>
    intro off remaining len buf _
    refine ⟨⟨len, buf, r.ret, r.errno⟩, rfl, rfl, ?_, ?_⟩ <;>
    · rw [List.nil_append, writeLoop_cons, h1]
      rw [if_neg (by intro h; exact h2 h.2), if_neg (by decide)]
      rfl
  | cons x s1 ih =>
    intro off remaining len buf hb
    rw [List.cons_append, writeLoop_cons]
    rw [writeLoop_cons] at hb ⊢
    split_ifs at hb ⊢
    · obtain ⟨c, c1, c2, c3, c4⟩ := ih off remaining len buf (by simpa [WriteRun.after] using hb)
      exact ⟨c, c1, c2, by simp [WriteRun.after, c3], by simpa [WriteRun.after] using c4⟩
    · obtain ⟨c, c1, c2, c3, c4⟩ := ih _ _ _ _ (by simpa [WriteRun.after] using hb)
      exact ⟨c, c1, c2, by simp [WriteRun.after, c3], by simpa [WriteRun.after] using c4⟩

/-- C6: results of OS calls that are `EINTR` interruptions do not change what
`read` and `write` do.  For `read`, putting interruptions `preR` before the
results `rs` gives the same returned value, exception and destination array,
and only adds the interrupted calls.  For `write`, putting interruptions
`preW` before any OS call of the run (after the results `s1`) gives the same
final status, the same delivered bytes and the same calls that were not
interrupted.  A `read(2)` or `write(2)` that fails with -1 and an `errno` other
than `EINTR` is the last call made: the exception for it is thrown at once. -/
theorem interruption_invisible (rt : Runtime) (ba : List Byte) (off n : Int)
    (preR rs : List ReadRet) (preW s1 s2 : List SysRet)
    (hR : ∀ e ∈ preR, e.ret = -1 ∧ e.errno = EINTR)
    (hW : ∀ e ∈ preW, e.interrupted) :
    ((Java_foundation_icon_ee_ipc_Client_read rt ba off n (preR ++ rs)).ret
        = (Java_foundation_icon_ee_ipc_Client_read rt ba off n rs).ret ∧
      (Java_foundation_icon_ee_ipc_Client_read rt ba off n (preR ++ rs)).exn
        = (Java_foundation_icon_ee_ipc_Client_read rt ba off n rs).exn ∧
      (Java_foundation_icon_ee_ipc_Client_read rt ba off n (preR ++ rs)).ba
        = (Java_foundation_icon_ee_ipc_Client_read rt ba off n rs).ba ∧
      (Java_foundation_icon_ee_ipc_Client_read rt ba off n (preR ++ rs)).calls
        = preR.map (fun e => ⟨readLen off n, e.ret, e.errno⟩) ++
          (Java_foundation_icon_ee_ipc_Client_read rt ba off n rs).calls) ∧
    ((Java_foundation_icon_ee_ipc_Client_write rt ba off n (s1 ++ (preW ++ s2))).status
        = (Java_foundation_icon_ee_ipc_Client_write rt ba off n (s1 ++ s2)).status ∧
      (Java_foundation_icon_ee_ipc_Client_write rt ba off n (s1 ++ (preW ++ s2))).delivered
        = (Java_foundation_icon_ee_ipc_Client_write rt ba off n (s1 ++ s2)).delivered ∧
      (Java_foundation_icon_ee_ipc_Client_write rt ba off n (s1 ++ (preW ++ s2))).calls.filter
          (fun c => ¬ c.interrupted)
        = (Java_foundation_icon_ee_ipc_Client_write rt ba off n (s1 ++ s2)).calls.filter
          (fun c => ¬ c.interrupted)) ∧
    (∀ (r : ReadRet) (rest : List ReadRet), r.ret = -1 → r.errno ≠ EINTR →
      (Java_foundation_icon_ee_ipc_Client_read rt ba off n (r :: rest)).calls
        = [⟨readLen off n, r.ret, r.errno⟩] ∧
      (Java_foundation_icon_ee_ipc_Client_read rt ba off n (r :: rest)).exn
        = some (JNU_ThrowByNameWithLastError rt "java/io/IOException" r.errno "read")) ∧
    (∀ (r : SysRet) (rest : List SysRet), r.ret = -1 → r.errno ≠ EINTR →
      (Java_foundation_icon_ee_ipc_Client_write rt ba off n s1).status = .blocked →
      ∃ c : WriteCall, c.ret = r.ret ∧ c.errno = r.errno ∧
        (Java_foundation_icon_ee_ipc_Client_write rt ba off n (s1 ++ r :: rest)).calls
          = (Java_foundation_icon_ee_ipc_Client_write rt ba off n s1).calls ++ [c] ∧
        (Java_foundation_icon_ee_ipc_Client_write rt ba off n (s1 ++ r :: rest)).status
          = .raised (c.thrown rt)) := by
  refine ⟨?_, ?_, ?_, ?_⟩
  · unfold Java_foundation_icon_ee_ipc_Client_read
    rw [readLoop_interrupted rt ba off _ rs preR hR]
    exact ⟨rfl, rfl, rfl, rfl⟩
  · unfold Java_foundation_icon_ee_ipc_Client_write
    exact writeLoop_insert_interrupted rt ba preW s2 hW s1 _ _ _ _
  · intro r rest h1 h2
    unfold Java_foundation_icon_ee_ipc_Client_read
    rw [readLoop_cons, if_neg (by intro h; exact h2 h.2), if_pos h1]
    exact ⟨rfl, rfl⟩
  · intro r rest h1 h2 hb
    unfold Java_foundation_icon_ee_ipc_Client_write at hb ⊢
    exact writeLoop_failure_once rt ba r rest h1 h2 s1 _ _ _ _ hb

/-- Witness of C6: two interruptions of `read` and one of the second `write(2)`. -/
theorem interruption_invisible_witness :
    (Java_foundation_icon_ee_ipc_Client_read linux sampleDest 1 4
        ([⟨-1, 4, []⟩, ⟨-1, 4, []⟩] ++ [⟨2, 0, [8, 9]⟩])).ba
      = (Java_foundation_icon_ee_ipc_Client_read linux sampleDest 1 4 [⟨2, 0, [8, 9]⟩]).ba ∧
    (Java_foundation_icon_ee_ipc_Client_write linux sampleDest 1 4
        ([⟨2, 0⟩] ++ ([⟨-1, 4⟩] ++ [⟨2, 0⟩]))).delivered
      = (Java_foundation_icon_ee_ipc_Client_write linux sampleDest 1 4
        ([⟨2, 0⟩] ++ [⟨2, 0⟩])).delivered :=
  ⟨(interruption_invisible linux sampleDest 1 4 [⟨-1, 4, []⟩, ⟨-1, 4, []⟩] [⟨2, 0, [8, 9]⟩]
      [⟨-1, 4⟩] [⟨2, 0⟩] [⟨2, 0⟩] (by decide) (by decide)).1.2.2.1,
    (interruption_invisible linux sampleDest 1 4 [⟨-1, 4, []⟩, ⟨-1, 4, []⟩] [⟨2, 0, [8, 9]⟩]
      [⟨-1, 4⟩] [⟨2, 0⟩] [⟨2, 0⟩] (by decide) (by decide)).2.1.2.1⟩

/-! ## `connect` -/

theorem connect_fits (rt : Runtime) (p : List Byte) (os : SysRet)
    (hfit : (cstr p).length < sunPathSize) :
    Java_foundation_icon_ee_ipc_Client_connect rt (some p) os =
      if (if os.ret = -1 then os.errno else 0) ≠ 0 then
        if (if os.ret = -1 then os.errno else 0) = ENOENT then
          some ⟨[cstr p], some (JNU_ThrowByName rt "java/io/FileNotFoundException" none)⟩
        else
          some ⟨[cstr p], some (JNU_ThrowByName rt "java/io/IOException"
            (strdup rt (rt.strerror (if os.ret = -1 then os.errno else 0))))⟩
      else some ⟨[cstr p], none⟩ := by
  unfold Java_foundation_icon_ee_ipc_Client_connect
  simp only
  rw [if_neg (by omega)]

/-- A path that does not fit `sun_path` with its NUL: `strcpy` writes past
`addr` and the run has no defined outcome. -/
theorem connect_long_path (rt : Runtime) (p : List Byte) (os : SysRet)
    (hlong : sunPathSize ≤ (cstr p).length) :
    Java_foundation_icon_ee_ipc_Client_connect rt (some p) os = none := by
  unfold Java_foundation_icon_ee_ipc_Client_connect
  simp only
  rw [if_pos (by omega)]

set_option maxRecDepth 100000 in
/-- The 108-byte path `longPath` has no defined outcome. -/
theorem connect_long_path_witness :
    Java_foundation_icon_ee_ipc_Client_connect linux (some longPath) ⟨0, 0⟩ = none :=
  connect_long_path linux longPath ⟨0, 0⟩ (by decide)

/-- C7: for a path that fits `sun_path` with its terminating NUL (fewer than
108 bytes), `connect` makes exactly one `connect(2)` call, on that path, and
its result decides the outcome: no exception when the call does not return
-1; `FileNotFoundException` with no message, and not `IOException`, when it
fails with `ENOENT`; `IOException` when it fails with any other error, its
message the `strdup` of the `strerror` text, which is that text whenever
`strdup` finds memory. -/
theorem connect_outcomes (rt : Runtime) (p : List Byte) (os : SysRet)
    (hfit : (cstr p).length < sunPathSize)
    (hnf : rt.FindClass "java/io/FileNotFoundException" = true)
    (hio : rt.FindClass "java/io/IOException" = true) :
    (∃ run, Java_foundation_icon_ee_ipc_Client_connect rt (some p) os = some run ∧
      run.calls = [cstr p]) ∧
    (os.ret ≠ -1 →
      Java_foundation_icon_ee_ipc_Client_connect rt (some p) os = some ⟨[cstr p], none⟩) ∧
    (os.ret = -1 → os.errno = ENOENT →
      Java_foundation_icon_ee_ipc_Client_connect rt (some p) os
        = some ⟨[cstr p], some ⟨"java/io/FileNotFoundException", none⟩⟩ ∧
      ∀ run m, Java_foundation_icon_ee_ipc_Client_connect rt (some p) os = some run →
        run.exn ≠ some ⟨"java/io/IOException", m⟩) ∧
    (os.ret = -1 → os.errno ≠ 0 → os.errno ≠ ENOENT →
      Java_foundation_icon_ee_ipc_Client_connect rt (some p) os
        = some ⟨[cstr p], some ⟨"java/io/IOException", strdup rt (rt.strerror os.errno)⟩⟩ ∧
      (rt.strdupOk (rt.strerror os.errno) = true →
        Java_foundation_icon_ee_ipc_Client_connect rt (some p) os
          = some ⟨[cstr p], some ⟨"java/io/IOException", some (rt.strerror os.errno)⟩⟩)) := by
  rw [connect_fits rt p os hfit]
  unfold JNU_ThrowByName
  simp only [hnf, hio, if_true]
  refine ⟨?_, ?_, ?_, ?_⟩
  · split_ifs <;> exact ⟨_, rfl, rfl⟩
  · intro h; simp [h]
  · intro h1 h2
    simp only [h1, h2, if_true]
    refine ⟨by simp [ENOENT], ?_⟩
    intro run m hrun
    simp [ENOENT] at hrun
    rw [← hrun]
    simp
  · intro h1 h2 h3
    simp only [h1, if_true, h2, h3, ne_eq, not_false_eq_true, if_false]
    refine ⟨trivial, ?_⟩
    intro hd
    simp [strdup, hd]

/-- Witness of C7: connecting to a path that does not exist. -/
theorem connect_outcomes_witness :
    Java_foundation_icon_ee_ipc_Client_connect linux (some nonexistentPath) ⟨-1, 2⟩
      = some ⟨[nonexistentPath], some ⟨"java/io/FileNotFoundException", none⟩⟩ :=
  ((connect_outcomes linux nonexistentPath ⟨-1, 2⟩ (by decide) (by decide) (by decide)).2.2.1
    (by decide) (by decide)).1

/-! ## Chunk pattern of `write` -/

theorem range_map_chunks (rem m : Nat) (h : 128 < rem) :
    (List.range (m + 1)).map (fun i => min 128 (rem - 128 * i))
      = 128 :: (List.range m).map (fun i => min 128 (rem - 128 - 128 * i)) := by
  have h0 : min 128 (rem - 128 * 0) = 128 := by omega
  rw [List.range_succ_eq_map, List.map_cons, List.map_map, h0]
  refine congrArg (List.cons 128) (List.map_congr_left ?_)
  intro i _
  have : rem - 128 * (i + 1) = rem - 128 - 128 * i := by omega
  simp only [Function.comp, Nat.succ_eq_add_one, this]

theorem writeLoop_pattern (rt : Runtime) (ba : List Byte) :
    ∀ (script : List SysRet) (off : Int) (remaining : Nat),
      1 ≤ remaining → remaining < 2147483648 →
      (remaining + 127) / 128 ≤ script.length →
      (∀ c ∈ (writeLoop rt ba off remaining (min chunkSize remaining)
          (GetByteArrayRegion ba off (min chunkSize remaining)) script).calls,
          c.ret = c.len) →
      (writeLoop rt ba off remaining (min chunkSize remaining)
          (GetByteArrayRegion ba off (min chunkSize remaining)) script).status = .returned ∧
      (writeLoop rt ba off remaining (min chunkSize remaining)
          (GetByteArrayRegion ba off (min chunkSize remaining)) script).calls.map (fun c => c.len)
        = (List.range ((remaining + 127) / 128)).map (fun i => min 128 (remaining - 128 * i)) ∧
      (writeLoop rt ba off remaining (min chunkSize remaining)
          (GetByteArrayRegion ba off (min chunkSize remaining)) script).calls.map (fun c => c.len)
        = List.replicate ((remaining + 127) / 128 - 1) 128 ++
          [remaining - 128 * ((remaining + 127) / 128 - 1)] := by
  intro script
  induction script with
  | nil => intro off remaining h1 _ h3 _; simp at h3; omega
  | cons r rest ih =>
    intro off remaining h1 h2 h3 hos
    have hhead := hos _ (writeLoop_head_mem ..)
    simp only at hhead
    have hlen : min chunkSize remaining ≤ 128 := by unfold chunkSize; omega
    have hlen1 : 1 ≤ min chunkSize remaining := by unfold chunkSize; omega
    have hj : toJint r.ret = r.ret := toJint_of_range (by omega) (by omega)
    have hrem1 : toSizeT ((remaining : Int) - r.ret) = remaining - r.ret.toNat :=
      toSizeT_natCast_sub (by omega) (by omega) (by omega)
    rw [writeLoop_cons] at hos ⊢
    rw [hj, hrem1] at hos ⊢
    rw [if_neg (by omega), if_pos (by omega)] at hos ⊢
    have hrt : r.ret.toNat = min chunkSize remaining := by omega
    rw [hrt] at hos ⊢
    by_cases hgo : remaining - min chunkSize remaining > 0
    · rw [if_pos hgo] at hos ⊢
      have hbig : 128 < remaining := by unfold chunkSize at hgo; omega
      have hmin : min chunkSize remaining = 128 := by unfold chunkSize; omega
      rw [hmin] at hos ⊢
      obtain ⟨s1, s2, s3⟩ := ih (toJint (off + r.ret)) (remaining - 128) (by omega) (by omega)
        (by simp at h3; omega)
        (fun c hc => hos c (by simp [WriteRun.after]; exact Or.inr hc))
      have hm : (remaining + 127) / 128 = (remaining - 128 + 127) / 128 + 1 := by omega
      refine ⟨by simpa [WriteRun.after] using s1, ?_, ?_⟩
      · simp only [WriteRun.after, List.map_cons]
        rw [s2, hm, range_map_chunks remaining _ hbig]
      · simp only [WriteRun.after, List.map_cons]
        rw [s3, hm]
        have h4 : (remaining - 128 + 127) / 128 + 1 - 1
            = ((remaining - 128 + 127) / 128 - 1) + 1 := by omega
        have h5 : remaining - 128 - 128 * ((remaining - 128 + 127) / 128 - 1)
            = remaining - 128 * ((remaining - 128 + 127) / 128 - 1 + 1) := by omega
        rw [h4, List.replicate_succ, List.cons_append, h5]
    · rw [if_neg hgo]
      have hsmall : remaining ≤ 128 := by unfold chunkSize at hgo; omega
      have hmin : min chunkSize remaining = remaining := by unfold chunkSize; omega
      have hm : (remaining + 127) / 128 = 1 := by omega
      refine ⟨rfl, ?_, ?_⟩
      · show [min chunkSize remaining] = _
        rw [hm, hmin]
        have : min 128 (remaining - 128 * 0) = remaining := by omega
        simp only [List.range_succ, List.range_zero, List.nil_append, List.map_cons,
          List.map_nil, this]
      · show [min chunkSize remaining] = _
        rw [hm, hmin]
        simp

/-- C8: for a region of `L ≥ 1` bytes inside the array and an OS that takes
every offered chunk in full, `write` returns without an exception after
exactly `⌈L/128⌉` OS calls; call `i` is offered `min(128, L - 128·i)` bytes, so
all calls but the last carry 128 bytes and the last carries
`L - 128·(⌈L/128⌉ - 1)`. -/
theorem write_chunk_pattern (rt : Runtime) (ba : List Byte) (off L : Int)
    (script : List SysRet)
    (hba : (ba.length : Int) < 2147483648)
    (hL : 1 ≤ L) (hoff : 0 ≤ off) (hin : off + L ≤ ba.length)
    (hos : ∀ c ∈ (Java_foundation_icon_ee_ipc_Client_write rt ba off L script).calls,
      c.ret = c.len)
    (hfuel : (L.toNat + 127) / 128 ≤ script.length) :
    (Java_foundation_icon_ee_ipc_Client_write rt ba off L script).status = .returned ∧
    (Java_foundation_icon_ee_ipc_Client_write rt ba off L script).outOfBounds = false ∧
    (Java_foundation_icon_ee_ipc_Client_write rt ba off L script).calls.length
      = (L.toNat + 127) / 128 ∧
    (Java_foundation_icon_ee_ipc_Client_write rt ba off L script).calls.map (fun c => c.len)
      = (List.range ((L.toNat + 127) / 128)).map (fun i => min 128 (L.toNat - 128 * i)) ∧
    (Java_foundation_icon_ee_ipc_Client_write rt ba off L script).calls.map (fun c => c.len)
      = List.replicate ((L.toNat + 127) / 128 - 1) 128 ++
        [L.toNat - 128 * ((L.toNat + 127) / 128 - 1)] ∧
    (Java_foundation_icon_ee_ipc_Client_write rt ba off L script).calls.map (fun c => c.ret)
      = (List.range ((L.toNat + 127) / 128)).map
        (fun i => ((min 128 (L.toNat - 128 * i) : Nat) : Int)) := by
  have hsz : toSizeT L = L.toNat := toSizeT_of_range (by omega) (by omega)
  unfold Java_foundation_icon_ee_ipc_Client_write at hos ⊢
  simp only [hsz] at hos ⊢
  obtain ⟨h1, h2, h3⟩ := writeLoop_pattern rt ba script off L.toNat (by omega) (by omega)
    hfuel hos
  have hlen := congrArg List.length h2
  simp only [List.length_map, List.length_range] at hlen
  refine ⟨h1, ?_, hlen, h2, h3, ?_⟩
  · refine writeLoop_inside rt ba hba script off L.toNat hoff (by omega) ?_
    intro c hc
    have := hos c hc
    omega
  · have hr : (writeLoop rt ba off L.toNat (min chunkSize L.toNat)
        (GetByteArrayRegion ba off (min chunkSize L.toNat)) script).calls.map (fun c => c.ret)
        = ((writeLoop rt ba off L.toNat (min chunkSize L.toNat)
        (GetByteArrayRegion ba off (min chunkSize L.toNat)) script).calls.map
          (fun c => c.len)).map (fun n : Nat => (n : Int)) := by
      rw [List.map_map]
      exact List.map_congr_left (fun c hc => hos c hc)
    rw [hr, h2, List.map_map]
    rfl

set_option maxRecDepth 100000 in
/-- Witness of C8 with `L = 300`: three calls of 128, 128 and 44 bytes. -/
theorem write_chunk_pattern_witness :
    (Java_foundation_icon_ee_ipc_Client_write linux array300 0 300
        [⟨128, 0⟩, ⟨128, 0⟩, ⟨44, 0⟩]).status = .returned ∧
    (Java_foundation_icon_ee_ipc_Client_write linux array300 0 300
        [⟨128, 0⟩, ⟨128, 0⟩, ⟨44, 0⟩]).calls.map (fun c => c.len) = [128, 128, 44] :=
  ⟨(write_chunk_pattern linux array300 0 300 [⟨128, 0⟩, ⟨128, 0⟩, ⟨44, 0⟩] (by decide)
      (by decide) (by decide) (by decide) (by decide) (by decide)).1,
    (write_chunk_pattern linux array300 0 300 [⟨128, 0⟩, ⟨128, 0⟩, ⟨44, 0⟩] (by decide)
      (by decide) (by decide) (by decide) (by decide) (by decide)).2.2.2.1⟩

/-! ## Zero-length `write` -/

theorem writeLoop_returned_positive (rt : Runtime) (ba : List Byte) :
    ∀ (script : List SysRet) (off : Int) (remaining len : Nat) (buf : Option (List Byte)),
      (writeLoop rt ba off remaining len buf script).status = .returned →
      ∃ c ∈ (writeLoop rt ba off remaining len buf script).calls, 0 < toJint c.ret := by
  intro script
  induction script with
  | nil => intro off remaining len buf h; simp [writeLoop_nil] at h
  | cons r rest ih =>
    intro off remaining len buf h
    rw [writeLoop_cons] at h ⊢
    split_ifs at h ⊢ with h1 h2 h3
    · obtain ⟨c, hc, hp⟩ := ih off remaining len buf (by simpa [WriteRun.after] using h)
      exact ⟨c, by simp [WriteRun.after]; exact Or.inr hc, hp⟩
    · obtain ⟨c, hc, hp⟩ := ih _ _ _ _ (by simpa [WriteRun.after] using h)
      exact ⟨c, by simp [WriteRun.after]; exact Or.inr hc, hp⟩
    · exact ⟨_, List.mem_singleton_self _, h2⟩

theorem writeLoop_zero_not_returned (rt : Runtime) (ba : List Byte) (off : Int)
    (buf : Option (List Byte)) :
    ∀ (script : List SysRet),
      (∀ c ∈ (writeLoop rt ba off 0 0 buf script).calls,
        -2147483648 ≤ c.ret ∧ c.ret ≤ c.len) →
      (writeLoop rt ba off 0 0 buf script).status ≠ .returned := by
  intro script
  induction script with
  | nil => intro _; simp [writeLoop_nil]
  | cons r rest ih =>
    intro hos
    have hhead := hos _ (writeLoop_head_mem ..)
    simp only at hhead
    have hj : toJint r.ret = r.ret := toJint_of_range (by omega) (by omega)
    rw [writeLoop_cons] at hos ⊢
    rw [hj] at hos ⊢
    by_cases hint : r.ret = -1 ∧ r.errno = EINTR
    · rw [if_pos hint] at hos ⊢
      have := ih (fun c hc => hos c (by simp [WriteRun.after]; exact Or.inr hc))
      simpa [WriteRun.after] using this
    · rw [if_neg hint, if_neg (by omega)]
      simp

/-- C9: a `write` of length 0 still calls `write(2)`, with length 0: after any
`EINTR` interruptions exactly one call completes, and when it returns 0 or
fails, `write` raises `IOException`.  With an OS whose `write(2)` results fit
an `int` and do not exceed the length offered, a zero-length `write` never
returns normally; and no `write` returns normally unless one of its OS calls
stored a positive count in `n` (a positive result, when the result fits an
`int`). -/
theorem write_zero_length (rt : Runtime) (ba : List Byte) (off : Int)
    (pre : List SysRet) (r : SysRet) (rest : List SysRet)
    (hcls : rt.FindClass "java/io/IOException" = true)
    (hpre : ∀ e ∈ pre, e.interrupted)
    (hr : r.ret = 0 ∨ (r.ret = -1 ∧ r.errno ≠ EINTR)) :
    (Java_foundation_icon_ee_ipc_Client_write rt ba off 0 (pre ++ r :: rest)).calls
      = pre.map (fun e => ⟨0, GetByteArrayRegion ba off 0, e.ret, e.errno⟩) ++
        [⟨0, GetByteArrayRegion ba off 0, r.ret, r.errno⟩] ∧
    ((Java_foundation_icon_ee_ipc_Client_write rt ba off 0 (pre ++ r :: rest)).calls.filter
      (fun c => ¬ c.interrupted)).length = 1 ∧
    (∀ c ∈ (Java_foundation_icon_ee_ipc_Client_write rt ba off 0 (pre ++ r :: rest)).calls,
      c.len = 0 ∧ c.accepted = []) ∧
    (Java_foundation_icon_ee_ipc_Client_write rt ba off 0 (pre ++ r :: rest)).status
      = .raised (JNU_ThrowByNameWithLastError rt "java/io/IOException" r.errno "write") ∧
    (JNU_ThrowByNameWithLastError rt "java/io/IOException" r.errno "write").cls
      = "java/io/IOException" ∧
    (∀ script : List SysRet,
      (∀ c ∈ (Java_foundation_icon_ee_ipc_Client_write rt ba off 0 script).calls,
        -2147483648 ≤ c.ret ∧ c.ret ≤ c.len) →
      (Java_foundation_icon_ee_ipc_Client_write rt ba off 0 script).status ≠ .returned) ∧
    (∀ (bufLen : Int) (script : List SysRet),
      (Java_foundation_icon_ee_ipc_Client_write rt ba off bufLen script).status = .returned →
      ∃ c ∈ (Java_foundation_icon_ee_ipc_Client_write rt ba off bufLen script).calls,
        0 < toJint c.ret ∧ (-2147483648 ≤ c.ret → c.ret < 2147483648 → 0 < c.ret)) := by
  have hz : toSizeT 0 = 0 := by decide
  have hm : min chunkSize 0 = 0 := by decide
  have hni : ¬ (toJint r.ret = -1 ∧ r.errno = EINTR) := by
    rcases hr with h | ⟨h1, h2⟩
    · rw [h]; intro hh; exact absurd hh.1 (by decide)
    · intro hh; exact h2 hh.2
  have hnp : ¬ (toJint r.ret > 0) := by
    rcases hr with h | ⟨h1, h2⟩
    · rw [h]; decide
    · rw [h1]; decide
  have hrun : Java_foundation_icon_ee_ipc_Client_write rt ba off 0 (pre ++ r :: rest)
      = ⟨pre.map (fun e => ⟨0, GetByteArrayRegion ba off 0, e.ret, e.errno⟩) ++
          [⟨0, GetByteArrayRegion ba off 0, r.ret, r.errno⟩],
        .raised (JNU_ThrowByNameWithLastError rt "java/io/IOException" r.errno "write")⟩ := by
    unfold Java_foundation_icon_ee_ipc_Client_write
    simp only [hz, hm]
    rw [writeLoop_interrupted rt ba off 0 0 _ (r :: rest) pre hpre, writeLoop_cons,
      if_neg hni, if_neg hnp]
  refine ⟨by rw [hrun], ?_, ?_, by rw [hrun], thrown_cls rt _ _ _ hcls, ?_, ?_⟩
  · rw [hrun]
    simp only
    rw [filter_interrupted 0 _ pre hpre]
    have : ¬ (⟨0, GetByteArrayRegion ba off 0, r.ret, r.errno⟩ : WriteCall).interrupted := by
      rcases hr with h | ⟨h1, h2⟩
      · intro hh; have := hh.1; simp only at this; omega
      · intro hh; exact h2 hh.2
    simp [this]
  · rw [hrun]
    intro c hc
    simp only [List.mem_append, List.mem_map, List.mem_singleton] at hc
    rcases hc with ⟨e, he, rfl⟩ | rfl
    · refine ⟨rfl, ?_⟩
      simp [WriteCall.accepted, (hpre e he).1]
    · refine ⟨rfl, ?_⟩
      rcases hr with h | ⟨h1, h2⟩ <;> simp [WriteCall.accepted, *]
  · intro script hos
    unfold Java_foundation_icon_ee_ipc_Client_write at hos ⊢
    simp only [hz, hm] at hos ⊢
    exact writeLoop_zero_not_returned rt ba off _ script hos
  · intro bufLen script h
    unfold Java_foundation_icon_ee_ipc_Client_write at h ⊢
    obtain ⟨c, hc, hp⟩ := writeLoop_returned_positive rt ba script _ _ _ _ h
    refine ⟨c, hc, hp, fun h1 h2 => ?_⟩
    rwa [toJint_of_range h1 h2] at hp

/-- Witness of C9: a zero-length `write` whose one OS call returns 0. -/
theorem write_zero_length_witness :
    (Java_foundation_icon_ee_ipc_Client_write linux sampleDest 2 0 ([] ++ ⟨0, 0⟩ :: [])).calls
      = [⟨0, some [], 0, 0⟩] ∧
    (Java_foundation_icon_ee_ipc_Client_write linux sampleDest 2 0 ([] ++ ⟨0, 0⟩ :: [])).status
      = .raised ⟨"java/io/IOException", some "write"⟩ :=
  ⟨(write_zero_length linux sampleDest 2 [] ⟨0, 0⟩ [] (by decide) (by decide)
      (by decide)).1,
    (write_zero_length linux sampleDest 2 [] ⟨0, 0⟩ [] (by decide) (by decide)
      (by decide)).2.2.2.1⟩

/-! ## `read` with no remaining capacity -/

/-- C10: when `off = baLen`, every OS call of `read` asks for 0 bytes, and
when the call that is not interrupted returns 0, `read` returns the
end-of-stream value with no exception and the array unchanged: the value it
returns on a socket whose peer has closed with nothing unread.  It does so on
every socket, also one whose peer has not closed and that has bytes unread. -/
theorem read_no_capacity (rt : Runtime) (ba : List Byte) (off : Int) :
    readLen off off = 0 ∧
    (∀ script : List ReadRet,
      ∀ c ∈ (Java_foundation_icon_ee_ipc_Client_read rt ba off off script).calls, c.len = 0) ∧
    (∀ (pre : List ReadRet) (r : ReadRet) (rest : List ReadRet),
      (∀ e ∈ pre, e.ret = -1 ∧ e.errno = EINTR) → r.ret = 0 →
      (Java_foundation_icon_ee_ipc_Client_read rt ba off off (pre ++ r :: rest)).ret
        = some endOfStream ∧
      (Java_foundation_icon_ee_ipc_Client_read rt ba off off (pre ++ r :: rest)).exn = none ∧
      (Java_foundation_icon_ee_ipc_Client_read rt ba off off (pre ++ r :: rest)).ba = ba) ∧
    (∀ (s : Sock) (want : Nat),
      s.read want (readLen off off) = some ⟨0, 0, []⟩ ∧
      (readOn rt s ⟨ba, off, off, want⟩).ret = some endOfStream ∧
      (readOn rt s ⟨ba, off, off, want⟩).exn = none) ∧
    (∀ (baLen : Int) (want : Nat),
      (readOn rt ⟨[], true⟩ ⟨ba, off, baLen, want⟩).ret = some endOfStream) ∧
    (readOn rt ⟨[1, 2, 3], false⟩ ⟨ba, off, off, 1⟩).ret
      = (readOn rt ⟨[], true⟩ ⟨ba, off, off + 1, 1⟩).ret ∧
    (readOn rt ⟨[1, 2, 3], false⟩ ⟨ba, off, off, 1⟩).exn = none := by
  have hlen : readLen off off = 0 := by
    unfold readLen toSizeT toJint chunkSize
    simp
  have hsock : ∀ (s : Sock) (want : Nat), s.read want (readLen off off) = some ⟨0, 0, []⟩ := by
    intro s want
    simp [Sock.read, hlen]
  have hclosed : ∀ (baLen : Int) (want : Nat),
      (⟨[], true⟩ : Sock).read want (readLen off baLen) = some ⟨0, 0, []⟩ := by
    intro baLen want
    simp [Sock.read]
  have hopen : ∀ (s : Sock) (want : Nat),
      readOn rt s ⟨ba, off, off, want⟩ = ⟨[⟨0, 0, 0⟩], some endOfStream, none, ba⟩ := by
    intro s want
    unfold readOn Java_foundation_icon_ee_ipc_Client_read
    show readLoop rt ba off (readLen off off) (s.read want (readLen off off)).toList = _
    rw [hsock, hlen]
    simp only [Option.toList, readLoop_zero]
  refine ⟨hlen, ?_, ?_, ?_, ?_, ?_, ?_⟩
  · intro script c hc
    unfold Java_foundation_icon_ee_ipc_Client_read at hc
    rw [readLoop_calls_len rt ba off _ script c hc, hlen]
  · intro pre r rest hpre hr
    unfold Java_foundation_icon_ee_ipc_Client_read
    rw [readLoop_interrupted rt ba off _ (r :: rest) pre hpre]
    obtain ⟨a, b, c⟩ := r
    simp only at hr
    subst hr
    rw [readLoop_zero]
    exact ⟨rfl, rfl, rfl⟩
  · intro s want
    rw [hopen]
    exact ⟨hsock s want, rfl, rfl⟩
  · intro baLen want
    unfold readOn Java_foundation_icon_ee_ipc_Client_read
    simp only [hclosed, Option.toList, readLoop_zero]
  · rw [hopen]
    unfold readOn Java_foundation_icon_ee_ipc_Client_read
    simp only [hclosed, Option.toList, readLoop_zero]
  · rw [hopen]
end Client
